import Mathlib

/-!
# URL shortener: registry, allocator and click ledger

A shallow embedding of `services/urlService.js`, `utils/shortcodeGenerator.js`
and the `POST /shorturls` handler of `routes/urlRoutes.js`.

Modelling conventions.

* The three module-level collections (`urlStore`, `clickStats`, `usedShortcodes`)
  become the fields of an explicit `State` threaded through every operation.
* A JavaScript `Map` is its list of entries in insertion order, a `Set` its list of
  members in insertion order.
* Every reading of the wall clock (`moment()`) is a parameter: an instant is an
  integer number of milliseconds since the epoch, which is what the ISO strings
  stored in the records denote.  JavaScript numbers are modelled by rationals.
* A thrown `Error` is the `Except.error` component of the result; the state
  component is the state left behind by the call, also when it throws.
* `Math.random` is a stream of indices into the alphabet; the `do … while` loop of
  the generator is run with explicit fuel and yields `none` when it does not
  return within that fuel.
* Library collaborators (`new URL`, `new UserAgent`, `geoip.lookup`) and the
  configured `baseUrl` are the fields of `Env`.  Logging has no effect on the
  state or on results and is left out.
-/

namespace UrlShortener

/-! ## JavaScript `Map` and `Set` -/

/-- A JavaScript `Map` with string keys: its entries in insertion order. -/
abbrev JsMap (V : Type) := List (String × V)

namespace JsMap

variable {V : Type}

/-- Keys of `m` in insertion order (`m.keys()`). -/
def keys (m : JsMap V) : List String := m.map Prod.fst

/-- Lookup (`m.get(key)`), `none` standing for `undefined`. -/
def get : JsMap V → String → Option V
  | [], _ => none
  | (k, v) :: rest, key => if k = key then some v else get rest key

/-- Insertion or update (`m.set(key, val)`): an existing key keeps its position. -/
def set : JsMap V → String → V → JsMap V
  | [], key, val => [(key, val)]
  | (k, v) :: rest, key, val =>
    if k = key then (k, val) :: rest else (k, v) :: set rest key val

/-- Removal (`m.delete(key)`). -/
def delete : JsMap V → String → JsMap V
  | [], _ => []
  | (k, v) :: rest, key => if k = key then delete rest key else (k, v) :: delete rest key

end JsMap

/-- A JavaScript `Set` of strings: its members in insertion order. -/
abbrev JsSet := List String

namespace JsSet

/-- Membership test (`s.has(x)`). -/
def has (s : JsSet) (x : String) : Bool := decide (x ∈ s)

/-- Insertion (`s.add(x)`): a member already present is not added again. -/
def add (s : JsSet) (x : String) : JsSet := if x ∈ s then s else s ++ [x]

end JsSet

/-! ## Strings and regular expressions -/

/-- Model of `s.charAt(i)`: the one-character string at index `i`, or the empty string. -/
def charAt (s : String) (i : Nat) : String :=
  match s.data.get? i with
  | some c => String.singleton c
  | none => ""

/-- Substring test on character lists. -/
def includesList (pat : List Char) : List Char → Bool
  | [] => pat.isEmpty
  | c :: cs => pat.isPrefixOf (c :: cs) || includesList pat cs

/-- Model of `s.includes(pat)`. -/
def includes (s pat : String) : Bool := includesList pat.data s.data

/-- A character class `[…]` given by its inclusive ranges. -/
abbrev CharClass := List (Char × Char)

/-- Whether `ch` belongs to the class. -/
def CharClass.test (cls : CharClass) (ch : Char) : Bool :=
  cls.any (fun r => decide (r.1 ≤ ch) && decide (ch ≤ r.2))

/-- Matcher for the anchored pattern `^[cls]{lo,hi}$` on the rest of the input,
`count` characters of the class having been consumed so far. -/
def matchRepeat (cls : CharClass) (lo hi : Nat) : List Char → Nat → Bool
  | [], count => decide (lo ≤ count)
  | ch :: rest, count =>
    decide (count < hi) && cls.test ch && matchRepeat cls lo hi rest (count + 1)

/-- Model of `regex.test(s)` for a regular expression of the shape `^[cls]{lo,hi}$`. -/
def regexTest (cls : CharClass) (lo hi : Nat) (s : String) : Bool :=
  matchRepeat cls lo hi s.data 0

/-! ## `utils/shortcodeGenerator.js` -/

/-- The alphabet `chars` of `generateShortcode`. -/
def chars : String := "ABCDEFGHIJKLMNOPQRSTUVWXYZabcdefghijklmnopqrstuvwxyz0123456789"

/-- The inner `for` loop of `generateShortcode`: `n` more characters are appended to
`acc`, the next random index being `rnd pos`. -/
def appendRandomChars (rnd : Nat → Fin 62) : Nat → Nat → String → String
  | 0, _, acc => acc
  | n + 1, pos, acc => appendRandomChars rnd n (pos + 1) (acc ++ charAt chars (rnd pos).val)

/-- The `do … while (usedShortcodes.has(shortcode))` loop: at most `fuel` candidates
are drawn, the first one starting at position `pos` of the random stream. -/
def generateLoop (usedShortcodes : JsSet) (rnd : Nat → Fin 62) (length : Nat) :
    Nat → Nat → Option String
  | 0, _ => none
  | fuel + 1, pos =>
    let shortcode := appendRandomChars rnd length pos ""
    if usedShortcodes.has shortcode then
      generateLoop usedShortcodes rnd length fuel (pos + length)
    else some shortcode

/-- Default value of the `length` parameter of `generateShortcode`. -/
def defaultLength : Nat := 6

/-- Model of `generateShortcode(length)`: the code returned and the reservation set afterwards;
`none` when no free candidate is met within `fuel` draws. -/
def generateShortcode (usedShortcodes : JsSet) (rnd : Nat → Fin 62) (fuel : Nat)
    (length : Nat) : Option (String × JsSet) :=
  match generateLoop usedShortcodes rnd length fuel 0 with
  | none => none
  | some shortcode => some (shortcode, usedShortcodes.add shortcode)

/-- Model of `isShortcodeAvailable(shortcode)`. -/
def isShortcodeAvailable (usedShortcodes : JsSet) (shortcode : String) : Bool :=
  !usedShortcodes.has shortcode

/-- Model of `reserveShortcode(shortcode)`: the boolean returned and the reservation set
afterwards. -/
def reserveShortcode (usedShortcodes : JsSet) (shortcode : String) : Bool × JsSet :=
  if usedShortcodes.has shortcode then (false, usedShortcodes)
  else (true, usedShortcodes.add shortcode)

/-- The character class `[a-zA-Z0-9]` of `shortcodeRegex`. -/
def shortcodeClass : CharClass := [('a', 'z'), ('A', 'Z'), ('0', '9')]

/-- Model of `isValidShortcode(shortcode)`: `/^[a-zA-Z0-9]{3,20}$/.test(shortcode)`. -/
def isValidShortcode (shortcode : String) : Bool :=
  regexTest shortcodeClass 3 20 shortcode

/-! ## Data model of `services/urlService.js` -/

/-- An instant, in milliseconds since the epoch. -/
abbrev Timestamp := Int

/-- Conversion of a number to an integral time value, as `Date.prototype.setTime`
does it: the fractional part is dropped. -/
def timeClip (q : ℚ) : Int := if 0 ≤ q then ⌊q⌋ else ⌈q⌉

/-- The instant `t.clone().add(minutes, 'minutes')`. -/
def addMinutes (t : Timestamp) (minutes : ℚ) : Timestamp :=
  timeClip ((t : ℚ) + minutes * 60000)

/-- The object stored in `urlStore` (`urlEntry`). -/
structure UrlEntry where
  id : String
  originalUrl : String
  shortcode : String
  shortLink : String
  createdAt : Timestamp
  expiry : Timestamp
  validity : ℚ
  isActive : Bool
  deriving DecidableEq, Repr

/-- The `location` object of a click record. -/
structure Location where
  country : String
  region : String
  city : String
  deriving DecidableEq, Repr

/-- The object pushed on `stats.clicks` (`clickRecord`). -/
structure ClickRecord where
  timestamp : Timestamp
  ip : Option String
  userAgent : String
  browser : String
  os : String
  device : String
  referer : String
  location : Location
  deriving DecidableEq, Repr

/-- The object stored in `clickStats`. -/
structure ClickStats where
  totalClicks : Nat
  clicks : List ClickRecord
  deriving DecidableEq, Repr

/-- The module-level state: the registry, the click ledger and the reservation set. -/
structure State where
  urlStore : JsMap UrlEntry
  clickStats : JsMap ClickStats
  usedShortcodes : JsSet
  deriving DecidableEq, Repr

/-- The state when the modules have just been loaded. -/
def State.empty : State := { urlStore := [], clickStats := [], usedShortcodes := [] }

/-- The errors thrown by the service. -/
inductive ServiceError
  | invalidUrlFormat
  | invalidShortcodeFormat
  | shortcodeExists
  | shortcodeNotFound
  | urlExpired
  | statisticsNotFound
  | typeError
  deriving DecidableEq, Repr

/-- The `message` of each error. -/
def ServiceError.message : ServiceError → String
  | .invalidUrlFormat => "Invalid URL format"
  | .invalidShortcodeFormat => "Invalid shortcode format. Must be 3-20 alphanumeric characters."
  | .shortcodeExists => "Shortcode already exists"
  | .shortcodeNotFound => "Shortcode not found"
  | .urlExpired => "URL has expired"
  | .statisticsNotFound => "Statistics not found"
  | .typeError => "Cannot read properties of undefined (reading 'totalClicks')"

/-- What the user-agent library reports inside the `try` block of `recordClick`: the
block either runs to its end or throws at one of its four statements, the
assignments made before the throw being kept. -/
inductive UaParse
  | threwOnConstruct
  | threwOnBrowser
  | threwOnOs (browserName : Option String)
  | threwOnDevice (browserName osName : Option String)
  | parsed (browserName osName deviceType : Option String)
  deriving DecidableEq, Repr

/-- The collaborators of the service. -/
structure Env where
  baseUrl : String
  isValidUrl : String → Bool
  parseUserAgent : String → UaParse
  geoLookup : Option String → Option Location

/-- The part of an Express request that `recordClick` reads. -/
structure Request where
  ip : Option String
  remoteAddress : Option String
  userAgentHeader : Option String
  refererHeader : Option String
  deriving DecidableEq, Repr

/-- Truthiness of an optional string: `undefined`, `null` and `''` are falsy. -/
def truthy : Option String → Bool
  | none => false
  | some s => decide (s ≠ "")

/-- Model of `a || b` on optional strings. -/
def jsOr (a b : Option String) : Option String := if truthy a then a else b

/-- Model of `a || dflt` where `dflt` is a string literal. -/
def orDefault (a : Option String) (dflt : String) : String :=
  match a with
  | some s => if s ≠ "" then s else dflt
  | none => dflt

/-! ## `UrlService` -/

/-- The value returned by `createShortUrl`. -/
structure CreateResult where
  shortLink : String
  expiry : Timestamp
  deriving DecidableEq, Repr

/-- The tail of `createShortUrl`, once `shortcode` has been reserved: both maps
receive their entry and the link is returned.  `validity` is `none` when the
argument is `undefined`, in which case the default `30` applies. -/
def storeUrlEntry (env : Env) (s : State) (usedShortcodes : JsSet) (now : Timestamp)
    (originalUrl : String) (validity : Option ℚ) (shortcode : String) :
    Except ServiceError CreateResult × State :=
  let validity := validity.getD 30
  let createdAt := now
  let expiryTime := addMinutes createdAt validity
  let urlEntry : UrlEntry :=
    { id := shortcode
      originalUrl := originalUrl
      shortcode := shortcode
      shortLink := env.baseUrl ++ "/" ++ shortcode
      createdAt := createdAt
      expiry := expiryTime
      validity := validity
      isActive := true }
  (.ok { shortLink := urlEntry.shortLink, expiry := urlEntry.expiry },
   { urlStore := s.urlStore.set shortcode urlEntry
     clickStats := s.clickStats.set shortcode { totalClicks := 0, clicks := [] }
     usedShortcodes := usedShortcodes })

/-- Model of `createShortUrl(originalUrl, validity, customShortcode)` with the clock reading
`now`.  `rnd` and `fuel` feed `generateShortcode`; the result is `none` only when
the generator does not return. -/
def createShortUrl (env : Env) (s : State) (now : Timestamp) (rnd : Nat → Fin 62)
    (fuel : Nat) (originalUrl : String) (validity : Option ℚ)
    (customShortcode : Option String) :
    Option (Except ServiceError CreateResult × State) :=
  if !env.isValidUrl originalUrl then some (.error .invalidUrlFormat, s)
  else if truthy customShortcode then
    let custom := customShortcode.getD ""
    if !isValidShortcode custom then some (.error .invalidShortcodeFormat, s)
    else
      match reserveShortcode s.usedShortcodes custom with
      | (false, _) => some (.error .shortcodeExists, s)
      | (true, used) => some (storeUrlEntry env s used now originalUrl validity custom)
  else
    match generateShortcode s.usedShortcodes rnd fuel defaultLength with
    | none => none
    | some (shortcode, used) =>
      some (storeUrlEntry env s used now originalUrl validity shortcode)

/-- Model of `getUrlByShortcode(shortcode)` with the clock reading `now`. -/
def getUrlByShortcode (s : State) (now : Timestamp) (shortcode : String) :
    Except ServiceError UrlEntry × State :=
  match s.urlStore.get shortcode with
  | none => (.error .shortcodeNotFound, s)
  | some urlEntry =>
    if now > urlEntry.expiry then
      (.error .urlExpired,
       { s with urlStore := s.urlStore.set shortcode { urlEntry with isActive := false } })
    else (.ok urlEntry, s)

/-- The heuristic of the `catch` block of `recordClick`; `browser` and `os` are the
values the variables hold when the block is entered. -/
def fallbackClassify (userAgent browser os : String) : String × String × String :=
  let browser :=
    if includes userAgent "Chrome" then "Chrome"
    else if includes userAgent "Firefox" then "Firefox"
    else if includes userAgent "Safari" then "Safari"
    else if includes userAgent "Edge" then "Edge"
    else browser
  let os :=
    if includes userAgent "Windows" then "Windows"
    else if includes userAgent "Mac" then "macOS"
    else if includes userAgent "Linux" then "Linux"
    else if includes userAgent "Android" then "Android"
    else if includes userAgent "iOS" then "iOS"
    else os
  let device :=
    if includes userAgent "Mobile" then "mobile"
    else if includes userAgent "Tablet" then "tablet"
    else "desktop"
  (browser, os, device)

/-- The `try`/`catch` of `recordClick` that derives `browser`, `os` and `device`. -/
def classifyClient (env : Env) (userAgent : String) : String × String × String :=
  match env.parseUserAgent userAgent with
  | .parsed b o d => (orDefault b "Unknown", orDefault o "Unknown", orDefault d "Unknown")
  | .threwOnConstruct => fallbackClassify userAgent "Unknown" "Unknown"
  | .threwOnBrowser => fallbackClassify userAgent "Unknown" "Unknown"
  | .threwOnOs b => fallbackClassify userAgent (orDefault b "Unknown") "Unknown"
  | .threwOnDevice b o =>
    fallbackClassify userAgent (orDefault b "Unknown") (orDefault o "Unknown")

/-- The `clickRecord` that `recordClick` builds from a request, `stamp` being the
clock reading taken for its `timestamp`. -/
def buildClickRecord (env : Env) (stamp : Timestamp) (req : Request) : ClickRecord :=
  let ip := jsOr req.ip req.remoteAddress
  let userAgent := orDefault req.userAgentHeader ""
  let referer := orDefault req.refererHeader "Direct"
  let cls := classifyClient env userAgent
  let location :=
    match env.geoLookup ip with
    | some geo => geo
    | none => { country := "Unknown", region := "Unknown", city := "Unknown" }
  { timestamp := stamp
    ip := ip
    userAgent := userAgent
    browser := cls.1
    os := cls.2.1
    device := cls.2.2
    referer := referer
    location := location }

/-- Model of `recordClick(shortcode, req)`: `now` is the clock reading of the expiry check,
`stamp` the later one written into the click record. -/
def recordClick (env : Env) (s : State) (now stamp : Timestamp) (shortcode : String)
    (req : Request) : Except ServiceError String × State :=
  match getUrlByShortcode s now shortcode with
  | (.error e, s1) => (.error e, s1)
  | (.ok urlEntry, s1) =>
    let clickRecord := buildClickRecord env stamp req
    match s1.clickStats.get shortcode with
    | none => (.error .typeError, s1)
    | some stats =>
      (.ok urlEntry.originalUrl,
       { s1 with
         clickStats := s1.clickStats.set shortcode
           { totalClicks := stats.totalClicks + 1, clicks := stats.clicks ++ [clickRecord] } })

/-- The object returned by `getStatistics`. -/
structure Statistics where
  shortcode : String
  originalUrl : String
  shortLink : String
  createdAt : Timestamp
  expiry : Timestamp
  isActive : Bool
  totalClicks : Nat
  clicks : List ClickRecord
  deriving DecidableEq, Repr

/-- Model of `getStatistics(shortcode)` with the clock reading `now`. -/
def getStatistics (s : State) (now : Timestamp) (shortcode : String) :
    Except ServiceError Statistics × State :=
  match getUrlByShortcode s now shortcode with
  | (.error e, s1) => (.error e, s1)
  | (.ok urlEntry, s1) =>
    match s1.clickStats.get shortcode with
    | none => (.error .statisticsNotFound, s1)
    | some stats =>
      (.ok
        { shortcode := urlEntry.shortcode
          originalUrl := urlEntry.originalUrl
          shortLink := urlEntry.shortLink
          createdAt := urlEntry.createdAt
          expiry := urlEntry.expiry
          isActive := urlEntry.isActive
          totalClicks := stats.totalClicks
          clicks := stats.clicks }, s1)

/-- The `for … of urlStore.entries()` loop of `cleanupExpiredUrls` over the entries
still to visit; the accumulator is the state and `cleanedCount`. -/
def cleanupLoop (now : Timestamp) : List (String × UrlEntry) → State × Nat → State × Nat
  | [], acc => acc
  | (shortcode, urlEntry) :: rest, (s, cleanedCount) =>
    if now > urlEntry.expiry then
      cleanupLoop now rest
        ({ s with
           urlStore := s.urlStore.delete shortcode
           clickStats := s.clickStats.delete shortcode }, cleanedCount + 1)
    else cleanupLoop now rest (s, cleanedCount)

/-- Model of `cleanupExpiredUrls()` with the clock reading `now`: the count returned and the
state afterwards. -/
def cleanupExpiredUrls (s : State) (now : Timestamp) : Nat × State :=
  let r := cleanupLoop now s.urlStore (s, 0)
  (r.2, r.1)

/-! ## `POST /shorturls` -/

/-- A value of a parsed JSON body field, `undefined` standing for an absent one. -/
inductive JsValue
  | undefined
  | null
  | boolean (b : Bool)
  | number (q : ℚ)
  | string (s : String)
  | object
  deriving DecidableEq, Repr

/-- The test `v !== undefined`. -/
def JsValue.isDefined : JsValue → Bool
  | .undefined => false
  | _ => true

/-- The test `typeof v === 'number'`. -/
def JsValue.isNumber : JsValue → Bool
  | .number _ => true
  | _ => false

/-- The test `v <= 0`, evaluated on numbers only. -/
def JsValue.leZero : JsValue → Bool
  | .number q => decide (q ≤ 0)
  | _ => false

/-- The `validity` argument handed to `createShortUrl`. -/
def JsValue.toValidity : JsValue → Option ℚ
  | .number q => some q
  | _ => none

/-- The destructured request body of `POST /shorturls`. -/
structure CreateBody where
  url : Option String
  validity : JsValue
  shortcode : Option String
  deriving DecidableEq, Repr

/-- The response sent by a handler. -/
inductive Response
  | created (status : Nat) (result : CreateResult)
  | failure (status : Nat) (error message : String)
  deriving DecidableEq, Repr

/-- The `catch` block of the `POST /shorturls` handler. -/
def createErrorResponse (e : ServiceError) : Response :=
  if includes e.message "Invalid URL format" then
    .failure 400 "Invalid URL format" "Please provide a valid URL"
  else if includes e.message "Invalid shortcode format" then
    .failure 400 "Invalid shortcode format" "Shortcode must be 3-20 alphanumeric characters"
  else if includes e.message "Shortcode already exists" then
    .failure 409 "Shortcode already exists" "Please choose a different shortcode"
  else .failure 500 "Internal server error" "Failed to create short URL"

/-- The handler of `POST /shorturls`. -/
def postShorturls (env : Env) (s : State) (now : Timestamp) (rnd : Nat → Fin 62)
    (fuel : Nat) (body : CreateBody) : Option (Response × State) :=
  if !truthy body.url then
    some (.failure 400 "URL is required" "Please provide a valid URL to shorten", s)
  else if body.validity.isDefined && (!body.validity.isNumber || body.validity.leZero) then
    some (.failure 400 "Invalid validity period"
      "Validity must be a positive number representing minutes", s)
  else
    match createShortUrl env s now rnd fuel (body.url.getD "") body.validity.toValidity
        body.shortcode with
    | none => none
    | some (.ok result, s1) => some (.created 201 result, s1)
    | some (.error e, s1) => some (createErrorResponse e, s1)

/-! ## Histories -/

/-- A call of one of the five operations of the service, with its arguments and the
clock readings and random choices it consumes. -/
inductive Op
  | createShortUrl (now : Timestamp) (rnd : Nat → Fin 62) (fuel : Nat)
      (originalUrl : String) (validity : Option ℚ) (customShortcode : Option String)
  | getUrlByShortcode (now : Timestamp) (shortcode : String)
  | recordClick (now stamp : Timestamp) (shortcode : String) (req : Request)
  | getStatistics (now : Timestamp) (shortcode : String)
  | cleanupExpiredUrls (now : Timestamp)

/-- The state after one call; `none` when the call does not return. -/
def step (env : Env) (s : State) : Op → Option State
  | .createShortUrl now rnd fuel url validity custom =>
    (createShortUrl env s now rnd fuel url validity custom).map Prod.snd
  | .getUrlByShortcode now code => some (getUrlByShortcode s now code).2
  | .recordClick now stamp code req => some (recordClick env s now stamp code req).2
  | .getStatistics now code => some (getStatistics s now code).2
  | .cleanupExpiredUrls now => some (cleanupExpiredUrls s now).2

/-- The state after a sequence of calls, each of which returns. -/
def run (env : Env) : State → List Op → Option State
  | s, [] => some s
  | s, op :: ops =>
    match step env s op with
    | none => none
    | some s1 => run env s1 ops

/-- The states reachable from the empty state. -/
def Reachable (env : Env) (s : State) : Prop :=
  ∃ ops, run env State.empty ops = some s

/-- An environment for concrete evaluations. -/
def sampleEnv : Env :=
  { baseUrl := "http://localhost:3000"
    isValidUrl := fun u => includes u "://"
    parseUserAgent := fun _ => .threwOnBrowser
    geoLookup := fun _ => none }

/-- A random stream that always yields index `0`, the letter `A`. -/
def zeroStream : Nat → Fin 62 := fun _ => 0

/-! ## The pattern of the specification -/

/-- The language of `^[A-Za-z0-9]{3,20}$`, in the words of the specification: between
3 and 20 characters, each of them an ASCII letter or digit. -/
def MatchesShortcodePattern (code : String) : Prop :=
  3 ≤ code.length ∧ code.length ≤ 20 ∧ ∀ ch ∈ code.data, ch.isAlphanum = true

/-- The language of `^[A-Za-z0-9]{6}$`. -/
def MatchesDefaultPattern (code : String) : Prop :=
  code.length = 6 ∧ ∀ ch ∈ code.data, ch.isAlphanum = true

/-! ## Invariant of the reachable states -/

/-- What every reachable state satisfies: the two maps have the same keys in the same
order, no key occurs twice, every key is reserved, and every reserved code is
well-formed. -/
structure Inv (s : State) : Prop where
  keys_eq : s.urlStore.keys = s.clickStats.keys
  nodup : s.urlStore.keys.Nodup
  keys_used : ∀ c ∈ s.urlStore.keys, c ∈ s.usedShortcodes
  used_valid : ∀ c ∈ s.usedShortcodes, isValidShortcode c = true

/-! ## Concrete states -/

/-- The record of `createShortUrl("https://example.com", 1, "abc123")` at time `0`. -/
def sampleEntry : UrlEntry :=
  { id := "abc123"
    originalUrl := "https://example.com"
    shortcode := "abc123"
    shortLink := "http://localhost:3000/abc123"
    createdAt := 0
    expiry := 60000
    validity := 1
    isActive := true }

/-- The state after `createShortUrl("https://example.com", 1, "abc123")` at time `0`,
starting from the empty state. -/
def sampleState : State :=
  { urlStore := [("abc123", sampleEntry)]
    clickStats := [("abc123", { totalClicks := 0, clicks := [] })]
    usedShortcodes := ["abc123"] }

/-- The state after a further `cleanupExpiredUrls()` at time `60001`. -/
def sampleCleaned : State :=
  { urlStore := []
    clickStats := []
    usedShortcodes := ["abc123"] }

/-- Whether a call is a call of `cleanupExpiredUrls`. -/
def Op.isCleanup : Op → Bool
  | .cleanupExpiredUrls _ => true
  | _ => false

/-! ## The click events of a history -/

/-- Whether a call returned rather than threw. -/
def succeeded {ε α : Type} : Except ε α → Bool
  | .ok _ => true
  | .error _ => false

/-- The click record contributed to the ledger of `c` by one call made in state `s`:
the event built from the request of a successful `recordClick(c, req)`, nothing for
any other call. -/
def clickOf (env : Env) (c : String) (s : State) : Op → List ClickRecord
  | .recordClick now stamp c1 req =>
    if c1 = c ∧ succeeded (recordClick env s now stamp c1 req).1 = true then
      [buildClickRecord env stamp req]
    else []
  | _ => []

/-- The events of the successful `recordClick(c, ·)` calls of a history started in
state `s`, in call order. -/
def clickLog (env : Env) (c : String) : State → List Op → List ClickRecord
  | _, [] => []
  | s, op :: ops =>
    match step env s op with
    | none => []
    | some s1 => clickOf env c s op ++ clickLog env c s1 ops

/-- The ledger of `c` holds exactly the events logged for `c`, and nothing has been
logged for a code that was never reserved. -/
def LogInv (c : String) (log : List ClickRecord) (s : State) : Prop :=
  (∀ a, s.clickStats.get c = some a → a.clicks = log ∧ a.totalClicks = log.length) ∧
    (c ∉ s.usedShortcodes → log = [])

/-- A request for concrete evaluations. -/
def sampleRequest : Request :=
  { ip := some "203.0.113.7"
    remoteAddress := none
    userAgentHeader := some "Mozilla/5.0 (X11; Linux x86_64) Firefox/115.0"
    refererHeader := none }

/-- A history: one creation followed by two clicks on the created code, with a look-up
of an unknown code in between. -/
def sampleHistory : List Op :=
  [.createShortUrl 0 zeroStream 0 "https://example.com" (some 1) (some "abc123"),
   .recordClick 10 11 "abc123" sampleRequest,
   .getUrlByShortcode 12 "zzz",
   .recordClick 20 21 "abc123" { sampleRequest with refererHeader := some "https://ref.example" }]

/-- The state at the end of `sampleHistory`. -/
def sampleClicked : State :=
  (recordClick sampleEnv
    (getUrlByShortcode (recordClick sampleEnv sampleState 10 11 "abc123" sampleRequest).2 12
      "zzz").2 20 21 "abc123"
    { sampleRequest with refererHeader := some "https://ref.example" }).2

/-- The test `now.isAfter(urlEntry.expiry)` of the cleanup loop on an entry. -/
def expiredAt (now : Timestamp) (e : String × UrlEntry) : Bool := decide (now > e.2.expiry)

/-- The keys of the entries of `l` that are expired at `now`. -/
def expiredKeys (now : Timestamp) (l : List (String × UrlEntry)) : List String :=
  (l.filter (expiredAt now)).map Prod.fst

/-- A random stream whose first six choices are `A` and all later ones `B`. -/
def sampleStream : Nat → Fin 62 := fun i => if i < 6 then 0 else 1

/-! ## Look-ups and clock readings of a history -/

/-- The call of `getUrlByShortcode` that an operation makes, as its clock reading and
its code: `recordClick` and `getStatistics` both start with such a call. -/
def Op.lookup : Op → Option (Timestamp × String)
  | .getUrlByShortcode now c => some (now, c)
  | .recordClick now _ c _ => some (now, c)
  | .getStatistics now c => some (now, c)
  | _ => none

/-- The clock readings of a call, in the order in which they are taken. -/
def Op.clockReadings : Op → List Timestamp
  | .createShortUrl now _ _ _ _ _ => [now]
  | .getUrlByShortcode now _ => [now]
  | .recordClick now stamp _ _ => [now, stamp]
  | .getStatistics now _ => [now]
  | .cleanupExpiredUrls now => [now]

/-- The clock readings of a history, in order. -/
def clockTrace : List Op → List Timestamp
  | [] => []
  | op :: ops => op.clockReadings ++ clockTrace ops

/-- A non-decreasing sequence of clock readings. -/
def NonDecreasing (l : List Timestamp) : Prop := l.Pairwise (fun a b => a ≤ b)

/-- The code `c` is reserved and no record stored under it is active. -/
def Retired (c : String) (s : State) : Prop :=
  c ∈ s.usedShortcodes ∧ ∀ r, s.urlStore.get c = some r → r.isActive = false

/-- Every record that is no longer active expired before one of the clock readings
`seen`. -/
def FlagInv (seen : List Timestamp) (s : State) : Prop :=
  ∀ c r, s.urlStore.get c = some r → r.isActive = false → ∃ t ∈ seen, r.expiry < t

/-- The state after `getUrlByShortcode("abc123")` at time `60001` on `sampleState`: the
record has been observed expired. -/
def sampleExpired : State :=
  { urlStore := [("abc123", { sampleEntry with isActive := false })]
    clickStats := [("abc123", { totalClicks := 0, clicks := [] })]
    usedShortcodes := ["abc123"] }

/-- The history that leads to `sampleExpired`. -/
def sampleExpiredHistory : List Op :=
  [.createShortUrl 0 zeroStream 0 "https://example.com" (some 1) (some "abc123"),
   .getUrlByShortcode 60001 "abc123"]

/-! ## The classification heuristic of the specification -/

/-- The device class of the heuristic, in the words of the specification: mobile on
"Mobile", tablet on "Tablet", else desktop. -/
def heuristicDevice (s : String) : String :=
  if includes s "Mobile" then "mobile"
  else if includes s "Tablet" then "tablet"
  else "desktop"

namespace JsMap

variable {V : Type}

theorem get_set_self (m : JsMap V) (k : String) (v : V) : (m.set k v).get k = some v := by
  induction m with
  | nil => simp [set, get]
  | cons e rest ih =>
    obtain ⟨k0, v0⟩ := e
    by_cases h : k0 = k
    · simp [set, get, h]
    · simp [set, get, h, ih]

theorem get_set_ne (m : JsMap V) {k c : String} (v : V) (h : k ≠ c) :
    (m.set k v).get c = m.get c := by
  induction m with
  | nil => simp [set, get, h]
  | cons e rest ih =>
    obtain ⟨k0, v0⟩ := e
    by_cases h0 : k0 = k
    · subst h0
      simp [set, get, h]
    · by_cases h1 : k0 = c
      · subst h1
        simp [set, get, h0]
      · simp [set, get, h0, h1, ih]

theorem keys_set_of_mem (m : JsMap V) {k : String} (v : V) (h : k ∈ m.keys) :
    (m.set k v).keys = m.keys := by
  induction m with
  | nil => simp [keys] at h
  | cons e rest ih =>
    obtain ⟨k0, v0⟩ := e
    by_cases h0 : k0 = k
    · simp [set, keys, h0]
    · have hr : k ∈ keys rest := by
        simp only [keys, List.map_cons, List.mem_cons] at h
        rcases h with h | h
        · exact absurd h.symm h0
        · exact h
      have := ih hr
      simp only [keys] at this
      simp [set, keys, h0, this]

theorem keys_set_of_not_mem (m : JsMap V) {k : String} (v : V) (h : k ∉ m.keys) :
    (m.set k v).keys = m.keys ++ [k] := by
  induction m with
  | nil => simp [set, keys]
  | cons e rest ih =>
    obtain ⟨k0, v0⟩ := e
    simp only [keys, List.map_cons, List.mem_cons, not_or] at h
    have h0 : ¬ k0 = k := fun e => h.1 e.symm
    have := ih h.2
    simp only [keys] at this
    simp [set, keys, h0, this]

theorem mem_keys_set (m : JsMap V) (k c : String) (v : V) :
    c ∈ (m.set k v).keys ↔ c ∈ m.keys ∨ c = k := by
  by_cases h : k ∈ m.keys
  · rw [keys_set_of_mem m v h]
    constructor
    · exact Or.inl
    · rintro (h1 | h1)
      · exact h1
      · exact h1 ▸ h
  · rw [keys_set_of_not_mem m v h]
    simp

theorem get_eq_none_iff (m : JsMap V) (c : String) : m.get c = none ↔ c ∉ m.keys := by
  induction m with
  | nil => simp [get, keys]
  | cons e rest ih =>
    obtain ⟨k0, v0⟩ := e
    by_cases h0 : k0 = c
    · simp [get, keys, h0]
    · have h1 : ¬ c = k0 := fun e => h0 e.symm
      simp only [keys] at ih
      simp [get, keys, h0, h1, ih]

theorem mem_keys_of_get {m : JsMap V} {c : String} {v : V} (h : m.get c = some v) :
    c ∈ m.keys := by
  by_contra hc
  rw [(get_eq_none_iff m c).mpr hc] at h
  exact Option.noConfusion h

theorem get_isSome_of_mem_keys {m : JsMap V} {c : String} (h : c ∈ m.keys) :
    ∃ v, m.get c = some v := by
  cases hg : m.get c with
  | none => exact absurd h ((get_eq_none_iff m c).mp hg)
  | some v => exact ⟨v, rfl⟩

theorem mem_of_get {m : JsMap V} {c : String} {v : V} (h : m.get c = some v) :
    (c, v) ∈ m := by
  induction m with
  | nil => simp [get] at h
  | cons e rest ih =>
    obtain ⟨k0, v0⟩ := e
    by_cases h0 : k0 = c
    · simp only [get, h0, if_true, Option.some.injEq] at h
      simp [h0, h]
    · simp only [get, h0, if_false] at h
      exact List.mem_cons_of_mem _ (ih h)

theorem get_of_mem {m : JsMap V} {c : String} {v : V} (hn : m.keys.Nodup) (h : (c, v) ∈ m) :
    m.get c = some v := by
  induction m with
  | nil => simp at h
  | cons e rest ih =>
    obtain ⟨k0, v0⟩ := e
    simp only [keys, List.map_cons, List.nodup_cons] at hn
    rcases List.mem_cons.mp h with h1 | h1
    · cases h1
      simp [get]
    · have hk : c ∈ rest.map Prod.fst := List.mem_map_of_mem Prod.fst h1
      have h0 : ¬ k0 = c := fun e => hn.1 (e ▸ hk)
      simp only [get, h0, if_false]
      exact ih hn.2 h1

theorem mem_delete (m : JsMap V) (k : String) (e : String × V) :
    e ∈ m.delete k ↔ e ∈ m ∧ e.1 ≠ k := by
  induction m with
  | nil => simp [delete]
  | cons e0 rest ih =>
    obtain ⟨k0, v0⟩ := e0
    by_cases h0 : k0 = k
    · subst h0
      simp only [delete, if_true, ih, List.mem_cons]
      constructor
      · rintro ⟨h1, h2⟩
        exact ⟨Or.inr h1, h2⟩
      · rintro ⟨h1 | h1, h2⟩
        · exact absurd (congrArg Prod.fst h1) h2
        · exact ⟨h1, h2⟩
    · simp only [delete, h0, if_false, List.mem_cons, ih]
      constructor
      · rintro (h1 | ⟨h1, h2⟩)
        · exact ⟨Or.inl h1, by rw [h1]; exact h0⟩
        · exact ⟨Or.inr h1, h2⟩
      · rintro ⟨h1 | h1, h2⟩
        · exact Or.inl h1
        · exact Or.inr ⟨h1, h2⟩

theorem mem_keys_delete (m : JsMap V) (k c : String) :
    c ∈ (m.delete k).keys ↔ c ∈ m.keys ∧ c ≠ k := by
  simp only [keys, List.mem_map, mem_delete]
  constructor
  · rintro ⟨e, ⟨h1, h2⟩, rfl⟩
    exact ⟨⟨e, h1, rfl⟩, h2⟩
  · rintro ⟨⟨e, h1, rfl⟩, h2⟩
    exact ⟨e, ⟨h1, h2⟩, rfl⟩

theorem get_delete_self (m : JsMap V) (k : String) : (m.delete k).get k = none := by
  rw [get_eq_none_iff, mem_keys_delete]
  exact fun h => h.2 rfl

theorem get_delete_ne (m : JsMap V) {k c : String} (h : k ≠ c) :
    (m.delete k).get c = m.get c := by
  induction m with
  | nil => simp [delete, get]
  | cons e rest ih =>
    obtain ⟨k0, v0⟩ := e
    by_cases h0 : k0 = k
    · subst h0
      simp [delete, get, h, ih]
    · by_cases h1 : k0 = c
      · subst h1
        simp [delete, get, h0]
      · simp [delete, get, h0, h1, ih]

theorem keys_delete_sublist (m : JsMap V) (k : String) :
    List.Sublist (m.delete k).keys m.keys := by
  induction m with
  | nil => simp [delete, keys]
  | cons e rest ih =>
    obtain ⟨k0, v0⟩ := e
    simp only [keys] at ih
    by_cases h0 : k0 = k
    · simp only [delete, h0, if_true, keys, List.map_cons]
      exact List.Sublist.cons _ ih
    · simp only [delete, h0, if_false, keys, List.map_cons]
      exact List.Sublist.cons₂ _ ih

theorem nodup_keys_set {m : JsMap V} (k : String) (v : V) (h : m.keys.Nodup) :
    (m.set k v).keys.Nodup := by
  by_cases hk : k ∈ m.keys
  · rw [keys_set_of_mem m v hk]
    exact h
  · rw [keys_set_of_not_mem m v hk]
    exact List.Nodup.append h (List.nodup_singleton k) (by simpa using hk)

theorem nodup_keys_delete {m : JsMap V} (k : String) (h : m.keys.Nodup) :
    (m.delete k).keys.Nodup := by
  exact List.Nodup.sublist (keys_delete_sublist m k) h

end JsMap

namespace JsSet

theorem mem_add (s : JsSet) (x y : String) : y ∈ add s x ↔ y ∈ s ∨ y = x := by
  unfold add
  split
  · constructor
    · exact Or.inl
    · rintro (h | h)
      · exact h
      · subst h; assumption
  · simp

theorem has_eq_true (s : JsSet) (x : String) : has s x = true ↔ x ∈ s := by
  simp [has]

theorem has_eq_false (s : JsSet) (x : String) : has s x = false ↔ x ∉ s := by
  simp [has]

end JsSet

/-! ## Time -/

theorem timeClip_intCast (z : Int) : timeClip (z : ℚ) = z := by
  unfold timeClip
  split
  · exact Int.floor_intCast z
  · exact Int.ceil_intCast z

theorem addMinutes_natCast (t : Timestamp) (n : ℕ) :
    addMinutes t (n : ℚ) = t + n * 60000 := by
  have h : ((t : ℚ) + (n : ℚ) * 60000) = (((t + n * 60000 : Int)) : ℚ) := by
    push_cast; ring
  unfold addMinutes
  rw [h, timeClip_intCast]

/-! ## The shortcode pattern -/

theorem shortcodeClass_test (ch : Char) : shortcodeClass.test ch = ch.isAlphanum := by
  simp only [CharClass.test, shortcodeClass, List.any_cons, List.any_nil, Bool.or_false,
    Char.isAlphanum, Char.isAlpha, Char.isUpper, Char.isLower, Char.isDigit]
  rw [Bool.eq_iff_iff]
  simp only [Bool.or_eq_true, Bool.and_eq_true, decide_eq_true_eq, ge_iff_le]
  have e1 : ∀ a b : Char, a ≤ b ↔ a.val ≤ b.val := fun a b => Iff.rfl
  simp only [e1]
  have : ('a' : Char).val = 97 := rfl
  have : ('z' : Char).val = 122 := rfl
  have : ('A' : Char).val = 65 := rfl
  have : ('Z' : Char).val = 90 := rfl
  have : ('0' : Char).val = 48 := rfl
  have : ('9' : Char).val = 57 := rfl
  simp only [*]
  tauto

theorem matchRepeat_iff (cls : CharClass) (lo hi : Nat) (l : List Char) (count : Nat)
    (hc : count ≤ hi) :
    matchRepeat cls lo hi l count = true ↔
      lo ≤ count + l.length ∧ count + l.length ≤ hi ∧ ∀ ch ∈ l, cls.test ch = true := by
  induction l generalizing count with
  | nil => simp [matchRepeat, hc]
  | cons ch rest ih =>
    simp only [matchRepeat, Bool.and_eq_true, decide_eq_true_eq, List.length_cons,
      List.mem_cons, forall_eq_or_imp]
    by_cases hlt : count < hi
    · rw [ih (count + 1) hlt]
      constructor
      · rintro ⟨⟨_, h1⟩, h2, h3, h4⟩
        exact ⟨by omega, by omega, h1, h4⟩
      · rintro ⟨h1, h2, h3, h4⟩
        exact ⟨⟨hlt, h3⟩, by omega, by omega, h4⟩
    · constructor
      · rintro ⟨⟨h0, _⟩, _⟩
        exact absurd h0 hlt
      · rintro ⟨_, h2, _⟩
        omega

theorem isValidShortcode_iff (code : String) :
    isValidShortcode code = true ↔ MatchesShortcodePattern code := by
  unfold isValidShortcode regexTest MatchesShortcodePattern
  rw [matchRepeat_iff _ _ _ _ _ (Nat.zero_le _)]
  simp only [shortcodeClass_test, Nat.zero_add, String.length]

theorem ne_empty_of_isValidShortcode {code : String} (h : isValidShortcode code = true) :
    code ≠ "" := by
  intro he
  subst he
  exact absurd h (by decide)

theorem truthy_of_isValidShortcode {code : String} (h : isValidShortcode code = true) :
    truthy (some code) = true := by
  simp [truthy, ne_empty_of_isValidShortcode h]

/-! ## The generator -/

theorem charAt_chars (i : Fin 62) :
    charAt chars i.val = String.singleton (chars.data.getD i.val 'A') ∧
      (chars.data.getD i.val 'A').isAlphanum = true := by
  revert i
  decide

theorem data_appendRandomChars (rnd : Nat → Fin 62) (n pos : Nat) (acc : String) :
    (appendRandomChars rnd n pos acc).data =
      acc.data ++ (List.range n).map (fun i => chars.data.getD (rnd (pos + i)).val 'A') := by
  induction n generalizing pos acc with
  | zero => simp [appendRandomChars]
  | succ n ih =>
    rw [appendRandomChars, ih, (charAt_chars (rnd pos)).1, List.range_succ_eq_map]
    simp [String.singleton, Function.comp_def, Nat.add_assoc, Nat.add_comm 1]

theorem length_appendRandomChars (rnd : Nat → Fin 62) (n pos : Nat) :
    (appendRandomChars rnd n pos "").length = n := by
  have h0 : ("" : String).data = [] := rfl
  have h1 : ∀ s : String, s.length = s.data.length := fun _ => rfl
  rw [h1, data_appendRandomChars, h0]
  simp only [List.nil_append, List.length_map, List.length_range]

theorem isAlphanum_appendRandomChars (rnd : Nat → Fin 62) (n pos : Nat) :
    ∀ ch ∈ (appendRandomChars rnd n pos "").data, ch.isAlphanum = true := by
  intro ch hch
  have h0 : ("" : String).data = [] := rfl
  rw [data_appendRandomChars, h0] at hch
  simp only [List.nil_append, List.mem_map, List.mem_range] at hch
  obtain ⟨i, _, rfl⟩ := hch
  exact (charAt_chars (rnd (pos + i))).2

theorem generateLoop_some {used : JsSet} {rnd : Nat → Fin 62} {length fuel pos : Nat}
    {code : String} (h : generateLoop used rnd length fuel pos = some code) :
    code ∉ used ∧ ∃ p, code = appendRandomChars rnd length p "" := by
  induction fuel generalizing pos with
  | zero => simp [generateLoop] at h
  | succ fuel ih =>
    simp only [generateLoop] at h
    split at h
    · exact ih h
    · rename_i hfree
      cases h
      exact ⟨by simpa [JsSet.has] using hfree, pos, rfl⟩

theorem generateLoop_of_free {used : JsSet} {rnd : Nat → Fin 62} {length pos : Nat}
    (fuel : Nat) (h : appendRandomChars rnd length pos "" ∉ used) :
    generateLoop used rnd length (fuel + 1) pos = some (appendRandomChars rnd length pos "") := by
  simp [generateLoop, JsSet.has, h]

/-- The generator does return when the stream offers a free candidate and the fuel
reaches it: if the candidates of the first `k` rounds are all reserved and the next
one is free, every fuel above `k` yields that candidate. -/
theorem generateLoop_returns (used : JsSet) (rnd : Nat → Fin 62) (length : Nat) (k : Nat)
    (pos fuel : Nat)
    (hbusy : ∀ j < k, appendRandomChars rnd length (pos + j * length) "" ∈ used)
    (hfree : appendRandomChars rnd length (pos + k * length) "" ∉ used) (hfuel : k < fuel) :
    generateLoop used rnd length fuel pos =
      some (appendRandomChars rnd length (pos + k * length) "") := by
  induction k generalizing pos fuel with
  | zero =>
    obtain ⟨f, rfl⟩ : ∃ f, fuel = f + 1 := ⟨fuel - 1, by omega⟩
    simp only [Nat.zero_mul, Nat.add_zero] at hfree ⊢
    exact generateLoop_of_free f hfree
  | succ k ih =>
    obtain ⟨f, rfl⟩ : ∃ f, fuel = f + 1 := ⟨fuel - 1, by omega⟩
    have h0 : appendRandomChars rnd length pos "" ∈ used := by
      simpa using hbusy 0 (Nat.succ_pos k)
    have hstep : pos + (k + 1) * length = pos + length + k * length := by ring
    simp only [generateLoop, JsSet.has, h0, decide_True, if_true]
    rw [hstep] at hfree ⊢
    apply ih (pos + length) f _ hfree (by omega)
    intro j hj
    have := hbusy (j + 1) (by omega)
    have e : pos + (j + 1) * length = pos + length + j * length := by ring
    rw [e] at this
    exact this

theorem generateShortcode_some {used used' : JsSet} {rnd : Nat → Fin 62} {length fuel : Nat}
    {code : String} (h : generateShortcode used rnd fuel length = some (code, used')) :
    code ∉ used ∧ used' = used ++ [code] ∧ code.length = length ∧
      ∀ ch ∈ code.data, ch.isAlphanum = true := by
  unfold generateShortcode at h
  split at h
  · exact Option.noConfusion h
  · rename_i c hc
    simp only [Option.some.injEq, Prod.mk.injEq] at h
    obtain ⟨rfl, rfl⟩ := h
    obtain ⟨hfree, p, hp⟩ := generateLoop_some hc
    refine ⟨hfree, by simp [JsSet.add, hfree], ?_, ?_⟩
    · rw [hp]; exact length_appendRandomChars rnd length p
    · rw [hp]; exact isAlphanum_appendRandomChars rnd length p

theorem isValidShortcode_of_generated {used used' : JsSet} {rnd : Nat → Fin 62} {fuel : Nat}
    {code : String}
    (h : generateShortcode used rnd fuel defaultLength = some (code, used')) :
    isValidShortcode code = true := by
  obtain ⟨_, _, hlen, hall⟩ := generateShortcode_some h
  rw [isValidShortcode_iff]
  simp only [defaultLength] at hlen
  exact ⟨by omega, by omega, hall⟩

/-! ## `createShortUrl` -/

theorem createShortUrl_invalidUrl (env : Env) (s : State) (now : Timestamp)
    (rnd : Nat → Fin 62) (fuel : Nat) (u : String) (validity : Option ℚ)
    (custom : Option String) (hu : env.isValidUrl u = false) :
    createShortUrl env s now rnd fuel u validity custom =
      some (.error .invalidUrlFormat, s) := by
  simp [createShortUrl, hu]

theorem createShortUrl_custom_free (env : Env) (s : State) (now : Timestamp)
    (rnd : Nat → Fin 62) (fuel : Nat) (u : String) (validity : Option ℚ) (c : String)
    (hu : env.isValidUrl u = true) (hc : isValidShortcode c = true)
    (hfree : c ∉ s.usedShortcodes) :
    createShortUrl env s now rnd fuel u validity (some c) =
      some (storeUrlEntry env s (s.usedShortcodes ++ [c]) now u validity c) := by
  simp [createShortUrl, hu, hc, truthy_of_isValidShortcode hc, reserveShortcode, JsSet.has,
    JsSet.add, hfree]

theorem createShortUrl_custom_taken (env : Env) (s : State) (now : Timestamp)
    (rnd : Nat → Fin 62) (fuel : Nat) (u : String) (validity : Option ℚ) (c : String)
    (hu : env.isValidUrl u = true) (hc : isValidShortcode c = true)
    (htaken : c ∈ s.usedShortcodes) :
    createShortUrl env s now rnd fuel u validity (some c) =
      some (.error .shortcodeExists, s) := by
  simp [createShortUrl, hu, hc, truthy_of_isValidShortcode hc, reserveShortcode, JsSet.has,
    htaken]

theorem createShortUrl_custom_invalid (env : Env) (s : State) (now : Timestamp)
    (rnd : Nat → Fin 62) (fuel : Nat) (u : String) (validity : Option ℚ) (c : String)
    (hu : env.isValidUrl u = true) (hne : c ≠ "") (hc : isValidShortcode c = false) :
    createShortUrl env s now rnd fuel u validity (some c) =
      some (.error .invalidShortcodeFormat, s) := by
  simp [createShortUrl, hu, hc, truthy, hne]

theorem createShortUrl_generated (env : Env) (s : State) (now : Timestamp)
    (rnd : Nat → Fin 62) (fuel : Nat) (u : String) (validity : Option ℚ)
    (custom : Option String) (hu : env.isValidUrl u = true) (hc : truthy custom = false) :
    createShortUrl env s now rnd fuel u validity custom =
      match generateShortcode s.usedShortcodes rnd fuel defaultLength with
      | none => none
      | some (shortcode, used) =>
        some (storeUrlEntry env s used now u validity shortcode) := by
  simp [createShortUrl, hu, hc]

theorem JsMap.keys_delete {V : Type} (m : JsMap V) (k : String) :
    (m.delete k).keys = m.keys.filter (fun c => c != k) := by
  induction m with
  | nil => simp [JsMap.delete, JsMap.keys]
  | cons e rest ih =>
    obtain ⟨k0, v0⟩ := e
    simp only [JsMap.keys] at ih
    by_cases h0 : k0 = k
    · simp [JsMap.delete, JsMap.keys, h0, ih]
    · simp [JsMap.delete, JsMap.keys, h0, ih]

theorem inv_empty : Inv State.empty := by
  constructor <;> simp [State.empty, JsMap.keys]

theorem inv_storeUrlEntry (env : Env) {s : State} (now : Timestamp) (u : String)
    (validity : Option ℚ) {code : String} (hs : Inv s) (hfree : code ∉ s.usedShortcodes)
    (hvalid : isValidShortcode code = true) :
    Inv (storeUrlEntry env s (s.usedShortcodes ++ [code]) now u validity code).2 := by
  have hk : code ∉ s.urlStore.keys := fun h => hfree (hs.keys_used code h)
  have hk2 : code ∉ s.clickStats.keys := hs.keys_eq ▸ hk
  constructor
  · simp only [storeUrlEntry]
    rw [JsMap.keys_set_of_not_mem _ _ hk, JsMap.keys_set_of_not_mem _ _ hk2, hs.keys_eq]
  · simp only [storeUrlEntry]
    exact JsMap.nodup_keys_set _ _ hs.nodup
  · intro c hc
    simp only [storeUrlEntry] at hc ⊢
    rw [JsMap.mem_keys_set] at hc
    rcases hc with hc | hc
    · exact List.mem_append_left _ (hs.keys_used c hc)
    · simp [hc]
  · intro c hc
    simp only [storeUrlEntry, List.mem_append, List.mem_singleton] at hc
    rcases hc with hc | hc
    · exact hs.used_valid c hc
    · rw [hc]; exact hvalid

theorem truthy_eq_true {a : Option String} (h : truthy a = true) :
    ∃ c, a = some c ∧ c ≠ "" := by
  cases a with
  | none => simp [truthy] at h
  | some c => exact ⟨c, rfl, by simpa [truthy] using h⟩

/-- Every returning call of `createShortUrl` either throws and leaves the state as it
was, or stores an entry under a code that was free and is well-formed. -/
theorem createShortUrl_cases {env : Env} {s s1 : State} {now : Timestamp}
    {rnd : Nat → Fin 62} {fuel : Nat} {u : String} {validity : Option ℚ}
    {custom : Option String} {res : Except ServiceError CreateResult}
    (h : createShortUrl env s now rnd fuel u validity custom = some (res, s1)) :
    (s1 = s ∧ ∃ e, res = .error e) ∨
      ∃ code, code ∉ s.usedShortcodes ∧ isValidShortcode code = true ∧
        (custom = some code ∨ truthy custom = false) ∧
        (res, s1) = storeUrlEntry env s (s.usedShortcodes ++ [code]) now u validity code := by
  cases hu : env.isValidUrl u with
  | false =>
    rw [createShortUrl_invalidUrl env s now rnd fuel u validity custom hu] at h
    cases h
    exact Or.inl ⟨rfl, _, rfl⟩
  | true =>
    cases ht : truthy custom with
    | true =>
      obtain ⟨c, rfl, hne⟩ := truthy_eq_true ht
      cases hc : isValidShortcode c with
      | false =>
        rw [createShortUrl_custom_invalid env s now rnd fuel u validity c hu hne hc] at h
        cases h
        exact Or.inl ⟨rfl, _, rfl⟩
      | true =>
        by_cases hmem : c ∈ s.usedShortcodes
        · rw [createShortUrl_custom_taken env s now rnd fuel u validity c hu hc hmem] at h
          cases h
          exact Or.inl ⟨rfl, _, rfl⟩
        · rw [createShortUrl_custom_free env s now rnd fuel u validity c hu hc hmem] at h
          exact Or.inr ⟨c, hmem, hc, Or.inl rfl, (Option.some.inj h).symm⟩
    | false =>
      rw [createShortUrl_generated env s now rnd fuel u validity custom hu ht] at h
      split at h
      · exact Option.noConfusion h
      · rename_i code used hg
        obtain ⟨hfree, hused, _, _⟩ := generateShortcode_some hg
        subst hused
        exact Or.inr ⟨code, hfree, isValidShortcode_of_generated hg, Or.inr rfl,
          (Option.some.inj h).symm⟩

theorem inv_createShortUrl {env : Env} {s s1 : State} {now : Timestamp}
    {rnd : Nat → Fin 62} {fuel : Nat} {u : String} {validity : Option ℚ}
    {custom : Option String} {res : Except ServiceError CreateResult} (hs : Inv s)
    (h : createShortUrl env s now rnd fuel u validity custom = some (res, s1)) : Inv s1 := by
  rcases createShortUrl_cases h with ⟨rfl, _⟩ | ⟨code, hfree, hvalid, _, heq⟩
  · exact hs
  · have := inv_storeUrlEntry env now u validity hs hfree hvalid
    rw [← heq] at this
    exact this

/-- What `getUrlByShortcode` does, by cases on the registry and the clock. -/
theorem getUrlByShortcode_cases (s : State) (now : Timestamp) (c : String) :
    (s.urlStore.get c = none ∧ getUrlByShortcode s now c = (.error .shortcodeNotFound, s)) ∨
    (∃ r, s.urlStore.get c = some r ∧ now > r.expiry ∧
      getUrlByShortcode s now c =
        (.error .urlExpired,
         { s with urlStore := s.urlStore.set c { r with isActive := false } })) ∨
    (∃ r, s.urlStore.get c = some r ∧ now ≤ r.expiry ∧
      getUrlByShortcode s now c = (.ok r, s)) := by
  cases hg : s.urlStore.get c with
  | none => exact Or.inl ⟨rfl, by simp [getUrlByShortcode, hg]⟩
  | some r =>
    by_cases hexp : now > r.expiry
    · exact Or.inr (Or.inl ⟨r, rfl, hexp, by simp [getUrlByShortcode, hg, hexp]⟩)
    · exact Or.inr (Or.inr ⟨r, rfl, not_lt.mp hexp, by simp [getUrlByShortcode, hg, hexp]⟩)

theorem inv_set_urlStore {s : State} {c : String} (r : UrlEntry) (hs : Inv s)
    (hc : c ∈ s.urlStore.keys) : Inv { s with urlStore := s.urlStore.set c r } := by
  have hk := JsMap.keys_set_of_mem s.urlStore r hc
  constructor
  · simp only [hk]; exact hs.keys_eq
  · simp only [hk]; exact hs.nodup
  · simp only [hk]; exact hs.keys_used
  · exact hs.used_valid

theorem inv_set_clickStats {s : State} {c : String} (a : ClickStats) (hs : Inv s)
    (hc : c ∈ s.clickStats.keys) : Inv { s with clickStats := s.clickStats.set c a } := by
  have hk := JsMap.keys_set_of_mem s.clickStats a hc
  constructor
  · simp only [hk]; exact hs.keys_eq
  · exact hs.nodup
  · exact hs.keys_used
  · exact hs.used_valid

theorem inv_getUrlByShortcode {s : State} (now : Timestamp) (c : String) (hs : Inv s) :
    Inv (getUrlByShortcode s now c).2 := by
  rcases getUrlByShortcode_cases s now c with ⟨_, h⟩ | ⟨r, hg, _, h⟩ | ⟨r, _, _, h⟩
  · rw [h]; exact hs
  · rw [h]; exact inv_set_urlStore _ hs (JsMap.mem_keys_of_get hg)
  · rw [h]; exact hs

theorem inv_recordClick {env : Env} {s : State} (now stamp : Timestamp) (c : String)
    (req : Request) (hs : Inv s) : Inv (recordClick env s now stamp c req).2 := by
  have h1 := inv_getUrlByShortcode now c hs
  unfold recordClick
  split
  · rename_i e s1 heq
    rw [heq] at h1; exact h1
  · rename_i r s1 heq
    rw [heq] at h1
    split
    · exact h1
    · rename_i stats hst
      exact inv_set_clickStats _ h1 (JsMap.mem_keys_of_get hst)

theorem inv_getStatistics {s : State} (now : Timestamp) (c : String) (hs : Inv s) :
    Inv (getStatistics s now c).2 := by
  have h1 := inv_getUrlByShortcode now c hs
  unfold getStatistics
  split
  · rename_i e s1 heq
    rw [heq] at h1; exact h1
  · rename_i r s1 heq
    rw [heq] at h1
    split <;> exact h1

theorem inv_delete {s : State} (c : String) (hs : Inv s) :
    Inv { s with urlStore := s.urlStore.delete c, clickStats := s.clickStats.delete c } := by
  constructor
  · simp only [JsMap.keys_delete, hs.keys_eq]
  · exact JsMap.nodup_keys_delete c hs.nodup
  · intro k hk
    exact hs.keys_used k ((JsMap.mem_keys_delete _ _ _).mp hk).1
  · exact hs.used_valid

theorem inv_cleanupLoop (now : Timestamp) (l : List (String × UrlEntry)) (s : State)
    (n : Nat) (hs : Inv s) : Inv (cleanupLoop now l (s, n)).1 := by
  induction l generalizing s n with
  | nil => exact hs
  | cons e rest ih =>
    obtain ⟨c, r⟩ := e
    simp only [cleanupLoop]
    split
    · exact ih _ _ (inv_delete c hs)
    · exact ih _ _ hs

theorem inv_cleanupExpiredUrls {s : State} (now : Timestamp) (hs : Inv s) :
    Inv (cleanupExpiredUrls s now).2 :=
  inv_cleanupLoop now s.urlStore s 0 hs

theorem inv_step {env : Env} {s s1 : State} {op : Op} (hs : Inv s)
    (h : step env s op = some s1) : Inv s1 := by
  cases op with
  | createShortUrl now rnd fuel u validity custom =>
    simp only [step, Option.map_eq_some'] at h
    obtain ⟨⟨res, s2⟩, h1, rfl⟩ := h
    exact inv_createShortUrl hs h1
  | getUrlByShortcode now c =>
    simp only [step, Option.some.injEq] at h
    subst h; exact inv_getUrlByShortcode now c hs
  | recordClick now stamp c req =>
    simp only [step, Option.some.injEq] at h
    subst h; exact inv_recordClick now stamp c req hs
  | getStatistics now c =>
    simp only [step, Option.some.injEq] at h
    subst h; exact inv_getStatistics now c hs
  | cleanupExpiredUrls now =>
    simp only [step, Option.some.injEq] at h
    subst h; exact inv_cleanupExpiredUrls now hs

theorem inv_run {env : Env} {ops : List Op} {s s1 : State} (hs : Inv s)
    (h : run env s ops = some s1) : Inv s1 := by
  induction ops generalizing s with
  | nil =>
    simp only [run, Option.some.injEq] at h
    subst h; exact hs
  | cons op ops ih =>
    simp only [run] at h
    split at h
    · exact Option.noConfusion h
    · rename_i s2 hstep
      exact ih (inv_step hs hstep) h

theorem inv_of_reachable {env : Env} {s : State} (h : Reachable env s) : Inv s := by
  obtain ⟨ops, hrun⟩ := h
  exact inv_run inv_empty hrun

/-! ## Concrete histories -/

theorem addMinutes_zero_one : addMinutes 0 1 = 60000 := by
  have h := addMinutes_natCast 0 1
  simpa using h

theorem createShortUrl_sample :
    createShortUrl sampleEnv State.empty 0 zeroStream 0 "https://example.com" (some 1)
        (some "abc123") =
      some (.ok { shortLink := "http://localhost:3000/abc123", expiry := 60000 },
        sampleState) := by
  rw [createShortUrl_custom_free sampleEnv State.empty 0 zeroStream 0 "https://example.com"
    (some 1) "abc123" (by decide) (by decide) (by decide)]
  simp only [storeUrlEntry, Option.getD_some, addMinutes_zero_one]
  rfl

theorem cleanupExpiredUrls_sample : cleanupExpiredUrls sampleState 60001 = (1, sampleCleaned) := by
  decide

theorem reachable_sampleState : Reachable sampleEnv sampleState :=
  ⟨[.createShortUrl 0 zeroStream 0 "https://example.com" (some 1) (some "abc123")], by
    simp [run, step, createShortUrl_sample]⟩

theorem reachable_sampleCleaned : Reachable sampleEnv sampleCleaned :=
  ⟨[.createShortUrl 0 zeroStream 0 "https://example.com" (some 1) (some "abc123"),
    .cleanupExpiredUrls 60001], by
    simp [run, step, createShortUrl_sample, cleanupExpiredUrls_sample]⟩

/-! ## Taken codes -/

/-- C2: in a reachable state, `createShortUrl` with a valid URL and a custom code that
is a key of the registry throws 'Shortcode already exists' and leaves the whole state
(registry, click ledger and reservation set) as it was. -/
theorem C2_createShortUrl_taken_fails (env : Env) (s : State) (now : Timestamp)
    (rnd : Nat → Fin 62) (fuel : Nat) (u : String) (validity : Option ℚ) (c : String)
    (hr : Reachable env s) (hu : env.isValidUrl u = true) (hc : c ∈ s.urlStore.keys) :
    createShortUrl env s now rnd fuel u validity (some c) =
        some (.error .shortcodeExists, s) ∧
      ServiceError.shortcodeExists.message = "Shortcode already exists" := by
  have hinv := inv_of_reachable hr
  have hused := hinv.keys_used c hc
  exact ⟨createShortUrl_custom_taken env s now rnd fuel u validity c hu
    (hinv.used_valid c hused) hused, rfl⟩

theorem C2_createShortUrl_taken_fails_witness :
    createShortUrl sampleEnv sampleState 5 zeroStream 1 "https://other.example" none
        (some "abc123") = some (.error .shortcodeExists, sampleState) ∧
      ServiceError.shortcodeExists.message = "Shortcode already exists" :=
  C2_createShortUrl_taken_fails sampleEnv sampleState 5 zeroStream 1 "https://other.example"
    none "abc123" reachable_sampleState (by decide) (by decide)

/-! ## Expiry on read -/

theorem JsMap.set_set_self {V : Type} (m : JsMap V) (k : String) (v w : V) :
    (m.set k v).set k w = m.set k w := by
  induction m with
  | nil => simp [JsMap.set]
  | cons e rest ih =>
    obtain ⟨k0, v0⟩ := e
    by_cases h0 : k0 = k
    · simp [JsMap.set, h0]
    · simp [JsMap.set, h0, ih]

theorem getUrlByShortcode_of_le {s : State} {now : Timestamp} {c : String} {r : UrlEntry}
    (h : s.urlStore.get c = some r) (hle : now ≤ r.expiry) :
    getUrlByShortcode s now c = (.ok r, s) := by
  simp [getUrlByShortcode, h, not_lt.mpr hle]

theorem getUrlByShortcode_of_gt {s : State} {now : Timestamp} {c : String} {r : UrlEntry}
    (h : s.urlStore.get c = some r) (hgt : now > r.expiry) :
    getUrlByShortcode s now c =
      (.error .urlExpired,
       { s with urlStore := s.urlStore.set c { r with isActive := false } }) := by
  simp [getUrlByShortcode, h, hgt]

theorem getUrlByShortcode_of_none {s : State} {now : Timestamp} {c : String}
    (h : s.urlStore.get c = none) :
    getUrlByShortcode s now c = (.error .shortcodeNotFound, s) := by
  simp [getUrlByShortcode, h]

/-- C3, as the code has it: a record stored under `c` is returned unchanged by
`getUrlByShortcode(c)` at every time up to and including its expiry; at a time
strictly after the expiry the call throws 'URL has expired', the record is
afterwards the same record with `isActive = false`, nothing else has changed, and
every further call after the expiry throws the same error and leaves that state as
it is. -/
theorem C3_getUrlByShortcode_expiry (s : State) (now : Timestamp) (c : String)
    (r : UrlEntry) (h : s.urlStore.get c = some r) :
    (now ≤ r.expiry → getUrlByShortcode s now c = (.ok r, s)) ∧
    (now > r.expiry →
      ∃ s1, getUrlByShortcode s now c = (.error .urlExpired, s1) ∧
        ServiceError.urlExpired.message = "URL has expired" ∧
        s1.urlStore.get c = some { r with isActive := false } ∧
        (∀ c1, c1 ≠ c → s1.urlStore.get c1 = s.urlStore.get c1) ∧
        s1.clickStats = s.clickStats ∧ s1.usedShortcodes = s.usedShortcodes ∧
        ∀ now2, now2 > r.expiry →
          getUrlByShortcode s1 now2 c = (.error .urlExpired, s1)) := by
  refine ⟨getUrlByShortcode_of_le h, fun hgt => ⟨_, getUrlByShortcode_of_gt h hgt, rfl,
    JsMap.get_set_self _ _ _, fun c1 hc1 => JsMap.get_set_ne _ _ (Ne.symm hc1), rfl, rfl, ?_⟩⟩
  intro now2 h2
  have hget : ({ s with urlStore := s.urlStore.set c { r with isActive := false } } :
      State).urlStore.get c = some { r with isActive := false } := JsMap.get_set_self _ _ _
  rw [getUrlByShortcode_of_gt hget h2]
  simp [JsMap.set_set_self]

theorem C3_getUrlByShortcode_expiry_witness :
    ((60001 : Timestamp) ≤ sampleEntry.expiry →
      getUrlByShortcode sampleState 60001 "abc123" = (.ok sampleEntry, sampleState)) ∧
    ((60001 : Timestamp) > sampleEntry.expiry →
      ∃ s1, getUrlByShortcode sampleState 60001 "abc123" = (.error .urlExpired, s1) ∧
        ServiceError.urlExpired.message = "URL has expired" ∧
        s1.urlStore.get "abc123" = some { sampleEntry with isActive := false } ∧
        (∀ c1, c1 ≠ "abc123" → s1.urlStore.get c1 = sampleState.urlStore.get c1) ∧
        s1.clickStats = sampleState.clickStats ∧
        s1.usedShortcodes = sampleState.usedShortcodes ∧
        ∀ now2, now2 > sampleEntry.expiry →
          getUrlByShortcode s1 now2 "abc123" = (.error .urlExpired, s1)) :=
  C3_getUrlByShortcode_expiry sampleState 60001 "abc123" sampleEntry (by decide)

/-- C3 as stated fails at the instant of expiry: the record created at time `0` with a
validity of one minute expires at `60000`, and `getUrlByShortcode` at `60000` returns
it instead of throwing. -/
theorem C3_counterexample_at_expiry :
    Reachable sampleEnv sampleState ∧
      sampleState.urlStore.get "abc123" = some sampleEntry ∧
      (60000 : Timestamp) ≥ sampleEntry.expiry ∧
      getUrlByShortcode sampleState 60000 "abc123" = (.ok sampleEntry, sampleState) ∧
      (getUrlByShortcode sampleState 60000 "abc123").1 ≠ .error .urlExpired :=
  ⟨reachable_sampleState, by decide, by decide,
    getUrlByShortcode_of_le (by decide) (by decide), by
      rw [@getUrlByShortcode_of_le sampleState 60000 "abc123" sampleEntry (by decide)
        (by decide)]
      exact fun h => Except.noConfusion h⟩

/-! ## What each operation leaves untouched -/

theorem getUrlByShortcode_frame (s : State) (now : Timestamp) (c : String) :
    (getUrlByShortcode s now c).2.usedShortcodes = s.usedShortcodes ∧
      (getUrlByShortcode s now c).2.clickStats = s.clickStats ∧
      (getUrlByShortcode s now c).2.urlStore.keys = s.urlStore.keys := by
  rcases getUrlByShortcode_cases s now c with ⟨_, h⟩ | ⟨r, hg, _, h⟩ | ⟨r, _, _, h⟩
  · rw [h]; exact ⟨rfl, rfl, rfl⟩
  · rw [h]; exact ⟨rfl, rfl, JsMap.keys_set_of_mem _ _ (JsMap.mem_keys_of_get hg)⟩
  · rw [h]; exact ⟨rfl, rfl, rfl⟩

theorem getStatistics_state (s : State) (now : Timestamp) (c : String) :
    (getStatistics s now c).2 = (getUrlByShortcode s now c).2 := by
  unfold getStatistics
  split
  · rename_i e s1 heq
    rw [heq]
  · rename_i r s1 heq
    rw [heq]
    split <;> rfl

theorem recordClick_frame (env : Env) (s : State) (now stamp : Timestamp) (c : String)
    (req : Request) :
    (recordClick env s now stamp c req).2.usedShortcodes = s.usedShortcodes ∧
      (recordClick env s now stamp c req).2.urlStore = (getUrlByShortcode s now c).2.urlStore := by
  have hf := getUrlByShortcode_frame s now c
  unfold recordClick
  split
  · rename_i e s1 heq
    rw [heq] at hf
    exact ⟨hf.1, by rw [heq]⟩
  · rename_i r s1 heq
    rw [heq] at hf
    split
    · exact ⟨hf.1, by rw [heq]⟩
    · exact ⟨hf.1, by rw [heq]⟩

theorem usedShortcodes_cleanupLoop (now : Timestamp) (l : List (String × UrlEntry))
    (s : State) (n : Nat) :
    (cleanupLoop now l (s, n)).1.usedShortcodes = s.usedShortcodes := by
  induction l generalizing s n with
  | nil => rfl
  | cons e rest ih =>
    obtain ⟨c, r⟩ := e
    simp only [cleanupLoop]
    split
    · rw [ih]
    · rw [ih]

theorem usedShortcodes_cleanupExpiredUrls (s : State) (now : Timestamp) :
    (cleanupExpiredUrls s now).2.usedShortcodes = s.usedShortcodes :=
  usedShortcodes_cleanupLoop now s.urlStore s 0

/-- A reservation is never released: a reserved code stays reserved after every call. -/
theorem usedShortcodes_step {env : Env} {s s1 : State} {op : Op}
    (h : step env s op = some s1) {c : String} (hc : c ∈ s.usedShortcodes) :
    c ∈ s1.usedShortcodes := by
  cases op with
  | createShortUrl now rnd fuel u validity custom =>
    simp only [step, Option.map_eq_some'] at h
    obtain ⟨⟨res, s2⟩, h1, rfl⟩ := h
    rcases createShortUrl_cases h1 with ⟨rfl, _⟩ | ⟨code, _, _, _, heq⟩
    · exact hc
    · have h2 := congrArg (fun p => p.2.usedShortcodes) heq
      simp only [storeUrlEntry] at h2
      rw [h2]
      exact List.mem_append_left _ hc
  | getUrlByShortcode now c1 =>
    simp only [step, Option.some.injEq] at h
    subst h; rw [(getUrlByShortcode_frame s now c1).1]; exact hc
  | recordClick now stamp c1 req =>
    simp only [step, Option.some.injEq] at h
    subst h; rw [(recordClick_frame env s now stamp c1 req).1]; exact hc
  | getStatistics now c1 =>
    simp only [step, Option.some.injEq] at h
    subst h; rw [getStatistics_state, (getUrlByShortcode_frame s now c1).1]; exact hc
  | cleanupExpiredUrls now =>
    simp only [step, Option.some.injEq] at h
    subst h; rw [usedShortcodes_cleanupExpiredUrls]; exact hc

theorem usedShortcodes_run {env : Env} {ops : List Op} {s s1 : State}
    (h : run env s ops = some s1) {c : String} (hc : c ∈ s.usedShortcodes) :
    c ∈ s1.usedShortcodes := by
  induction ops generalizing s with
  | nil =>
    simp only [run, Option.some.injEq] at h
    subst h; exact hc
  | cons op ops ih =>
    simp only [run] at h
    split at h
    · exact Option.noConfusion h
    · rename_i s2 hstep
      exact ih h (usedShortcodes_step hstep hc)

/-- Without a cleanup, a reserved code stays a key of the registry. -/
theorem used_subset_keys_step {env : Env} {s s1 : State} {op : Op}
    (hop : op.isCleanup = false) (h : step env s op = some s1)
    (hs : ∀ c ∈ s.usedShortcodes, c ∈ s.urlStore.keys) :
    ∀ c ∈ s1.usedShortcodes, c ∈ s1.urlStore.keys := by
  cases op with
  | createShortUrl now rnd fuel u validity custom =>
    simp only [step, Option.map_eq_some'] at h
    obtain ⟨⟨res, s2⟩, h1, rfl⟩ := h
    rcases createShortUrl_cases h1 with ⟨rfl, _⟩ | ⟨code, _, _, _, heq⟩
    · exact hs
    · have h2 := congrArg Prod.snd heq
      simp only [storeUrlEntry] at h2
      intro c hc
      rw [h2] at hc ⊢
      simp only [List.mem_append, List.mem_singleton] at hc
      rw [JsMap.mem_keys_set]
      rcases hc with hc | hc
      · exact Or.inl (hs c hc)
      · exact Or.inr hc
  | getUrlByShortcode now c1 =>
    simp only [step, Option.some.injEq] at h
    subst h
    obtain ⟨h1, _, h3⟩ := getUrlByShortcode_frame s now c1
    rw [h1, h3]; exact hs
  | recordClick now stamp c1 req =>
    simp only [step, Option.some.injEq] at h
    subst h
    obtain ⟨h1, h2⟩ := recordClick_frame env s now stamp c1 req
    rw [h1, h2, (getUrlByShortcode_frame s now c1).2.2]; exact hs
  | getStatistics now c1 =>
    simp only [step, Option.some.injEq] at h
    subst h
    obtain ⟨h1, _, h3⟩ := getUrlByShortcode_frame s now c1
    rw [getStatistics_state, h1, h3]; exact hs
  | cleanupExpiredUrls now => simp [Op.isCleanup] at hop

theorem used_subset_keys_run {env : Env} {ops : List Op} {s s1 : State}
    (hops : ∀ op ∈ ops, op.isCleanup = false) (h : run env s ops = some s1)
    (hs : ∀ c ∈ s.usedShortcodes, c ∈ s.urlStore.keys) :
    ∀ c ∈ s1.usedShortcodes, c ∈ s1.urlStore.keys := by
  induction ops generalizing s with
  | nil =>
    simp only [run, Option.some.injEq] at h
    subst h; exact hs
  | cons op ops ih =>
    simp only [run] at h
    split at h
    · exact Option.noConfusion h
    · rename_i s2 hstep
      exact ih (fun o ho => hops o (List.mem_cons_of_mem _ ho)) h
        (used_subset_keys_step (hops op (List.mem_cons_self _ _)) hstep hs)

/-! ## Uniqueness of shortcodes and pairing of the two maps -/

/-- C4, as the code has it: after every history from the empty state, every key of
`urlStore` is in `usedShortcodes` and no code is the key of two records; conversely,
every code in `usedShortcodes` is a key of `urlStore` as long as the history contains
no call of `cleanupExpiredUrls` (which deletes records and keeps their
reservations). -/
theorem C4_keys_reserved (env : Env) (ops : List Op) (s : State)
    (h : run env State.empty ops = some s) :
    (∀ c, c ∈ s.urlStore.keys → c ∈ s.usedShortcodes) ∧ s.urlStore.keys.Nodup ∧
      ((∀ op ∈ ops, op.isCleanup = false) →
        ∀ c, c ∈ s.usedShortcodes ↔ c ∈ s.urlStore.keys) := by
  have hinv := inv_run inv_empty h
  refine ⟨hinv.keys_used, hinv.nodup, fun hops c => ⟨?_, hinv.keys_used c⟩⟩
  exact used_subset_keys_run hops h (by simp [State.empty]) c

theorem C4_keys_reserved_witness :
    (∀ c, c ∈ sampleState.urlStore.keys → c ∈ sampleState.usedShortcodes) ∧
      sampleState.urlStore.keys.Nodup ∧
      ((∀ op ∈ [Op.createShortUrl 0 zeroStream 0 "https://example.com" (some 1)
          (some "abc123")], op.isCleanup = false) →
        ∀ c, c ∈ sampleState.usedShortcodes ↔ c ∈ sampleState.urlStore.keys) :=
  C4_keys_reserved sampleEnv
    [.createShortUrl 0 zeroStream 0 "https://example.com" (some 1) (some "abc123")]
    sampleState (by simp [run, step, createShortUrl_sample])

/-- C4 as stated fails after a cleanup: once the record of `abc123` has expired and
`cleanupExpiredUrls` has removed it, the code is still in `usedShortcodes` although it
is no key of `urlStore`. -/
theorem C4_counterexample_after_cleanup :
    Reachable sampleEnv sampleCleaned ∧
      ¬ ("abc123" ∈ sampleCleaned.usedShortcodes ↔ "abc123" ∈ sampleCleaned.urlStore.keys) :=
  ⟨reachable_sampleCleaned, by decide⟩

/-- C5: in every reachable state the key set of `urlStore` equals the key set of
`clickStats` (the keys even come in the same order), and no key occurs twice in
either map: every record has exactly one click aggregate and every aggregate its
record. -/
theorem C5_registry_ledger_paired (env : Env) (s : State) (h : Reachable env s) :
    s.urlStore.keys = s.clickStats.keys ∧ s.urlStore.keys.Nodup ∧ s.clickStats.keys.Nodup ∧
      ∀ c, (s.urlStore.get c).isSome = (s.clickStats.get c).isSome := by
  have hinv := inv_of_reachable h
  refine ⟨hinv.keys_eq, hinv.nodup, hinv.keys_eq ▸ hinv.nodup, fun c => ?_⟩
  by_cases hc : c ∈ s.urlStore.keys
  · obtain ⟨r, hr⟩ := JsMap.get_isSome_of_mem_keys hc
    obtain ⟨a, ha⟩ := JsMap.get_isSome_of_mem_keys (hinv.keys_eq ▸ hc)
    rw [hr, ha]; rfl
  · have hc2 : c ∉ s.clickStats.keys := hinv.keys_eq ▸ hc
    rw [(JsMap.get_eq_none_iff _ _).mpr hc, (JsMap.get_eq_none_iff _ _).mpr hc2]
    rfl

theorem C5_registry_ledger_paired_witness :
    sampleCleaned.urlStore.keys = sampleCleaned.clickStats.keys ∧
      sampleCleaned.urlStore.keys.Nodup ∧ sampleCleaned.clickStats.keys.Nodup ∧
      ∀ c, (sampleCleaned.urlStore.get c).isSome = (sampleCleaned.clickStats.get c).isSome :=
  C5_registry_ledger_paired sampleEnv sampleCleaned reachable_sampleCleaned

/-! ## Record-then-read -/

/-- What `recordClick` does, by cases on the look-up it starts with. -/
theorem recordClick_cases (env : Env) (s : State) (now stamp : Timestamp) (c : String)
    (req : Request) :
    (succeeded (recordClick env s now stamp c req).1 = false ∧
      (recordClick env s now stamp c req).2.clickStats = s.clickStats) ∨
    (∃ r stats, s.urlStore.get c = some r ∧ now ≤ r.expiry ∧
      s.clickStats.get c = some stats ∧
      recordClick env s now stamp c req =
        (.ok r.originalUrl,
         { s with
           clickStats := s.clickStats.set c
             { totalClicks := stats.totalClicks + 1
               clicks := stats.clicks ++ [buildClickRecord env stamp req] } })) := by
  rcases getUrlByShortcode_cases s now c with ⟨_, h⟩ | ⟨r, _, _, h⟩ | ⟨r, hg, hle, h⟩
  · left; simp [recordClick, h, succeeded]
  · left; simp [recordClick, h, succeeded]
  · cases hst : s.clickStats.get c with
    | none => left; simp [recordClick, h, hst, succeeded]
    | some stats =>
      right
      exact ⟨r, stats, hg, hle, rfl, by simp [recordClick, h, hst]⟩

theorem get_clickStats_cleanupLoop (now : Timestamp) (l : List (String × UrlEntry))
    (s : State) (n : Nat) (c : String) (a : ClickStats)
    (h : (cleanupLoop now l (s, n)).1.clickStats.get c = some a) :
    s.clickStats.get c = some a := by
  induction l generalizing s n with
  | nil => exact h
  | cons e rest ih =>
    obtain ⟨c1, r⟩ := e
    simp only [cleanupLoop] at h
    split at h
    · have h1 := ih _ _ h
      simp only at h1
      by_cases hc : c1 = c
      · subst hc
        rw [JsMap.get_delete_self] at h1
        exact Option.noConfusion h1
      · rw [JsMap.get_delete_ne _ hc] at h1
        exact h1
    · exact ih _ _ h

theorem logInv_step {env : Env} {c : String} {log : List ClickRecord} {s s1 : State}
    {op : Op} (hs : Inv s) (hl : LogInv c log s) (h : step env s op = some s1) :
    LogInv c (log ++ clickOf env c s op) s1 := by
  cases op with
  | createShortUrl now rnd fuel u validity custom =>
    simp only [step, Option.map_eq_some'] at h
    obtain ⟨⟨res, s2⟩, h1, rfl⟩ := h
    simp only [clickOf, List.append_nil]
    rcases createShortUrl_cases h1 with ⟨rfl, _⟩ | ⟨code, hfree, _, _, heq⟩
    · exact hl
    · have h2 := congrArg Prod.snd heq
      simp only [storeUrlEntry] at h2
      rw [h2]
      by_cases hc : code = c
      · subst hc
        have hnil := hl.2 hfree
        subst hnil
        refine ⟨fun a ha => ?_, fun hn => rfl⟩
        simp only [JsMap.get_set_self, Option.some.injEq] at ha
        subst ha
        exact ⟨rfl, rfl⟩
      · refine ⟨fun a ha => ?_, fun hn => ?_⟩
        · simp only [JsMap.get_set_ne _ _ hc] at ha
          exact hl.1 a ha
        · exact hl.2 (fun hmem => hn (List.mem_append_left _ hmem))
  | getUrlByShortcode now c1 =>
    simp only [step, Option.some.injEq] at h
    subst h
    obtain ⟨h1, h2, _⟩ := getUrlByShortcode_frame s now c1
    simp only [clickOf, List.append_nil]
    exact ⟨fun a ha => hl.1 a (h2 ▸ ha), fun hn => hl.2 (h1 ▸ hn)⟩
  | getStatistics now c1 =>
    simp only [step, Option.some.injEq] at h
    subst h
    obtain ⟨h1, h2, _⟩ := getUrlByShortcode_frame s now c1
    simp only [clickOf, List.append_nil, getStatistics_state]
    exact ⟨fun a ha => hl.1 a (h2 ▸ ha), fun hn => hl.2 (h1 ▸ hn)⟩
  | cleanupExpiredUrls now =>
    simp only [step, Option.some.injEq] at h
    subst h
    simp only [clickOf, List.append_nil]
    refine ⟨fun a ha => hl.1 a (get_clickStats_cleanupLoop now _ s 0 c a ha), fun hn => ?_⟩
    rw [usedShortcodes_cleanupExpiredUrls] at hn
    exact hl.2 hn
  | recordClick now stamp c1 req =>
    simp only [step, Option.some.injEq] at h
    subst h
    have hused := (recordClick_frame env s now stamp c1 req).1
    rcases recordClick_cases env s now stamp c1 req with ⟨hfail, hcs⟩ |
      ⟨r, stats, hg, _, hst, heq⟩
    · simp only [clickOf, hfail, and_false, if_false, List.append_nil, Bool.false_eq_true]
      exact ⟨fun a ha => hl.1 a (hcs ▸ ha), fun hn => hl.2 (hused ▸ hn)⟩
    · by_cases hc : c1 = c
      · subst hc
        have hok : succeeded (recordClick env s now stamp c1 req).1 = true := by
          rw [heq]; rfl
        simp only [clickOf, hok, and_self, if_true]
        rw [heq]
        refine ⟨fun a ha => ?_, fun hn => ?_⟩
        · simp only [JsMap.get_set_self, Option.some.injEq] at ha
          subst ha
          obtain ⟨h1, h2⟩ := hl.1 stats hst
          simp [h1, h2]
        · exact absurd (hs.keys_used c1 (JsMap.mem_keys_of_get hg)) hn
      · simp only [clickOf, hc, false_and, if_false, List.append_nil]
        rw [heq]
        refine ⟨fun a ha => ?_, fun hn => hl.2 hn⟩
        simp only [JsMap.get_set_ne _ _ hc] at ha
        exact hl.1 a ha

theorem logInv_run {env : Env} {c : String} {ops : List Op} {log : List ClickRecord}
    {s s1 : State} (hs : Inv s) (hl : LogInv c log s) (h : run env s ops = some s1) :
    LogInv c (log ++ clickLog env c s ops) s1 := by
  induction ops generalizing s log with
  | nil =>
    simp only [run, Option.some.injEq] at h
    subst h
    simpa [clickLog] using hl
  | cons op ops ih =>
    simp only [run] at h
    split at h
    · exact Option.noConfusion h
    · rename_i s2 hstep
      have := ih (inv_step hs hstep) (logInv_step hs hl hstep) h
      simpa [clickLog, hstep, List.append_assoc] using this

/-- C6: after any history from the empty state, `getStatistics(c)` on a code whose
record is present and not expired succeeds, and the statistics it returns have as
`clicks` exactly the events built from the requests of the successful
`recordClick(c, ·)` calls of the history, in call order, and as `totalClicks` their
number, whatever other calls were interleaved. -/
theorem C6_record_then_read (env : Env) (ops : List Op) (s : State) (c : String)
    (now : Timestamp) (r : UrlEntry) (h : run env State.empty ops = some s)
    (hr : s.urlStore.get c = some r) (hnow : now ≤ r.expiry) :
    ∃ view, getStatistics s now c = (.ok view, s) ∧
      view.totalClicks = (clickLog env c State.empty ops).length ∧
      view.clicks = clickLog env c State.empty ops := by
  have hinv := inv_run inv_empty h
  have hlog : LogInv c ([] ++ clickLog env c State.empty ops) s :=
    logInv_run inv_empty ⟨fun a ha => by simp [State.empty, JsMap.get] at ha, fun _ => rfl⟩ h
  rw [List.nil_append] at hlog
  obtain ⟨a, ha⟩ := JsMap.get_isSome_of_mem_keys (hinv.keys_eq ▸ JsMap.mem_keys_of_get hr)
  obtain ⟨h1, h2⟩ := hlog.1 a ha
  refine ⟨Statistics.mk r.shortcode r.originalUrl r.shortLink r.createdAt r.expiry r.isActive
    a.totalClicks a.clicks, ?_, h2, h1⟩
  simp [getStatistics, getUrlByShortcode_of_le hr hnow, ha]

theorem run_sampleHistory : run sampleEnv State.empty sampleHistory = some sampleClicked := by
  simp [sampleHistory, run, step, createShortUrl_sample, sampleClicked]

theorem clickLog_sampleHistory :
    (clickLog sampleEnv "abc123" State.empty sampleHistory).map (fun e => (e.timestamp, e.referer))
      = [(11, "Direct"), (21, "https://ref.example")] := by
  simp only [sampleHistory, clickLog, step, createShortUrl_sample, Option.map_some']
  decide

theorem C6_record_then_read_witness :
    ∃ view, getStatistics sampleClicked 30 "abc123" = (.ok view, sampleClicked) ∧
      view.totalClicks = (clickLog sampleEnv "abc123" State.empty sampleHistory).length ∧
      view.clicks = clickLog sampleEnv "abc123" State.empty sampleHistory :=
  C6_record_then_read sampleEnv sampleHistory sampleClicked "abc123" 30 sampleEntry
    run_sampleHistory (by decide) (by decide)

/-! ## Cleanup -/

theorem JsMap.delete_eq_filter {V : Type} (m : JsMap V) (k : String) :
    m.delete k = m.filter (fun e => e.1 != k) := by
  induction m with
  | nil => rfl
  | cons e rest ih =>
    obtain ⟨k0, v0⟩ := e
    by_cases h0 : k0 = k
    · simp [JsMap.delete, h0, ih]
    · simp [JsMap.delete, h0, ih]

theorem mem_expiredKeys_cons (now : Timestamp) (c1 : String) (r : UrlEntry)
    (rest : List (String × UrlEntry)) (c : String) :
    c ∈ expiredKeys now ((c1, r) :: rest) ↔
      (now > r.expiry ∧ c = c1) ∨ c ∈ expiredKeys now rest := by
  unfold expiredKeys
  by_cases h : now > r.expiry
  · simp [List.filter_cons, expiredAt, h]
  · simp [List.filter_cons, expiredAt, h]

theorem count_cleanupLoop (now : Timestamp) (l : List (String × UrlEntry)) (s : State)
    (n : Nat) : (cleanupLoop now l (s, n)).2 = n + (l.filter (expiredAt now)).length := by
  induction l generalizing s n with
  | nil => simp [cleanupLoop]
  | cons e rest ih =>
    obtain ⟨c1, r⟩ := e
    by_cases h : now > r.expiry
    · simp only [cleanupLoop, h, if_true, ih, List.filter_cons, expiredAt, decide_True,
        List.length_cons]
      omega
    · simp only [cleanupLoop, h, if_false, ih, List.filter_cons, expiredAt, decide_False]
      simp

theorem get_urlStore_cleanupLoop (now : Timestamp) (l : List (String × UrlEntry))
    (s : State) (n : Nat) (c : String) :
    (cleanupLoop now l (s, n)).1.urlStore.get c =
      if c ∈ expiredKeys now l then none else s.urlStore.get c := by
  induction l generalizing s n with
  | nil => simp [cleanupLoop, expiredKeys]
  | cons e rest ih =>
    obtain ⟨c1, r⟩ := e
    by_cases h : now > r.expiry
    · simp only [cleanupLoop, h, if_true, ih, mem_expiredKeys_cons, true_and]
      by_cases hc : c = c1
      · subst hc
        simp [JsMap.get_delete_self]
      · simp [hc, JsMap.get_delete_ne _ (Ne.symm hc)]
    · simp only [cleanupLoop, h, if_false, ih, mem_expiredKeys_cons, false_and, false_or]

theorem get_clickStats_cleanupLoop_eq (now : Timestamp) (l : List (String × UrlEntry))
    (s : State) (n : Nat) (c : String) :
    (cleanupLoop now l (s, n)).1.clickStats.get c =
      if c ∈ expiredKeys now l then none else s.clickStats.get c := by
  induction l generalizing s n with
  | nil => simp [cleanupLoop, expiredKeys]
  | cons e rest ih =>
    obtain ⟨c1, r⟩ := e
    by_cases h : now > r.expiry
    · simp only [cleanupLoop, h, if_true, ih, mem_expiredKeys_cons, true_and]
      by_cases hc : c = c1
      · subst hc
        simp [JsMap.get_delete_self]
      · simp [hc, JsMap.get_delete_ne _ (Ne.symm hc)]
    · simp only [cleanupLoop, h, if_false, ih, mem_expiredKeys_cons, false_and, false_or]

theorem urlStore_cleanupLoop (now : Timestamp) (l : List (String × UrlEntry)) (s : State)
    (n : Nat) :
    (cleanupLoop now l (s, n)).1.urlStore =
      s.urlStore.filter (fun e => decide (e.1 ∉ expiredKeys now l)) := by
  induction l generalizing s n with
  | nil => simp [cleanupLoop, expiredKeys]
  | cons e rest ih =>
    obtain ⟨c1, r⟩ := e
    by_cases h : now > r.expiry
    · simp only [cleanupLoop, h, if_true, ih, JsMap.delete_eq_filter, List.filter_filter]
      apply List.filter_congr
      intro e _
      simp only [mem_expiredKeys_cons, h, true_and, not_or, Bool.decide_and, decide_not,
        bne, Bool.and_comm]
      cases decide (e.1 ∈ expiredKeys now rest) <;> cases hb : (e.1 == c1) <;>
        simp_all
    · simp only [cleanupLoop, h, if_false, ih]
      apply List.filter_congr
      intro e _
      simp [mem_expiredKeys_cons, h]

theorem mem_expiredKeys_iff (now : Timestamp) {m : JsMap UrlEntry} (hn : m.keys.Nodup)
    (c : String) :
    c ∈ expiredKeys now m ↔ ∃ r, m.get c = some r ∧ now > r.expiry := by
  constructor
  · intro h
    simp only [expiredKeys, List.mem_map, List.mem_filter, expiredAt, decide_eq_true_eq] at h
    obtain ⟨⟨c1, r⟩, ⟨hmem, hexp⟩, rfl⟩ := h
    exact ⟨r, JsMap.get_of_mem hn hmem, hexp⟩
  · rintro ⟨r, hg, hexp⟩
    simp only [expiredKeys, List.mem_map, List.mem_filter, expiredAt, decide_eq_true_eq]
    exact ⟨(c, r), ⟨JsMap.mem_of_get hg, hexp⟩, rfl⟩

theorem length_filter_add_length_filter_not {α : Type} (p : α → Bool) (l : List α) :
    (l.filter p).length + (l.filter (fun a => !p a)).length = l.length := by
  induction l with
  | nil => rfl
  | cons a rest ih =>
    cases hp : p a
    · simp [List.filter_cons, hp]; omega
    · simp [List.filter_cons, hp]; omega

theorem urlStore_cleanupExpiredUrls {s : State} (now : Timestamp)
    (hn : s.urlStore.keys.Nodup) :
    (cleanupExpiredUrls s now).2.urlStore = s.urlStore.filter (fun e => !expiredAt now e) := by
  simp only [cleanupExpiredUrls, urlStore_cleanupLoop]
  apply List.filter_congr
  rintro ⟨c, r⟩ hmem
  have hiff := mem_expiredKeys_iff now hn c
  have hg := JsMap.get_of_mem hn hmem
  by_cases hexp : now > r.expiry
  · have : c ∈ expiredKeys now s.urlStore := hiff.mpr ⟨r, hg, hexp⟩
    simp [expiredAt, hexp, this]
  · have : c ∉ expiredKeys now s.urlStore := by
      intro hc
      obtain ⟨r1, hg1, hexp1⟩ := hiff.mp hc
      rw [hg] at hg1
      cases hg1
      exact hexp hexp1
    simp [expiredAt, hexp, this]

/-- C7: on a state whose registry has no key twice (as every JavaScript `Map` has),
`cleanupExpiredUrls()` at clock reading `now` removes the records with `now > expiry`
together with their click aggregates, keeps every record with `now ≤ expiry` and its
aggregate as they are, adds nothing, returns the number of records removed, leaves
the reservation set alone, and afterwards no record has `expiry < now`. -/
theorem C7_cleanupExpiredUrls (s : State) (now : Timestamp) (hn : s.urlStore.keys.Nodup) :
    (∀ c r, s.urlStore.get c = some r → now > r.expiry →
      (cleanupExpiredUrls s now).2.urlStore.get c = none ∧
      (cleanupExpiredUrls s now).2.clickStats.get c = none) ∧
    (∀ c r, s.urlStore.get c = some r → now ≤ r.expiry →
      (cleanupExpiredUrls s now).2.urlStore.get c = some r ∧
      (cleanupExpiredUrls s now).2.clickStats.get c = s.clickStats.get c) ∧
    (∀ c, s.urlStore.get c = none →
      (cleanupExpiredUrls s now).2.urlStore.get c = none ∧
      (cleanupExpiredUrls s now).2.clickStats.get c = s.clickStats.get c) ∧
    (cleanupExpiredUrls s now).1 = (s.urlStore.filter (expiredAt now)).length ∧
    (cleanupExpiredUrls s now).1 + (cleanupExpiredUrls s now).2.urlStore.length =
      s.urlStore.length ∧
    (cleanupExpiredUrls s now).2.usedShortcodes = s.usedShortcodes ∧
    (∀ c r, (cleanupExpiredUrls s now).2.urlStore.get c = some r → ¬ r.expiry < now) := by
  have hiff := fun c => mem_expiredKeys_iff now hn c
  have hu : ∀ c, (cleanupExpiredUrls s now).2.urlStore.get c =
      if c ∈ expiredKeys now s.urlStore then none else s.urlStore.get c :=
    fun c => get_urlStore_cleanupLoop now s.urlStore s 0 c
  have hc : ∀ c, (cleanupExpiredUrls s now).2.clickStats.get c =
      if c ∈ expiredKeys now s.urlStore then none else s.clickStats.get c :=
    fun c => get_clickStats_cleanupLoop_eq now s.urlStore s 0 c
  have hcount : (cleanupExpiredUrls s now).1 = (s.urlStore.filter (expiredAt now)).length := by
    simp [cleanupExpiredUrls, count_cleanupLoop]
  refine ⟨?_, ?_, ?_, hcount, ?_, usedShortcodes_cleanupExpiredUrls s now, ?_⟩
  · intro c r hg hexp
    have hmem : c ∈ expiredKeys now s.urlStore := (hiff c).mpr ⟨r, hg, hexp⟩
    rw [hu, hc]
    simp [hmem]
  · intro c r hg hle
    have hmem : c ∉ expiredKeys now s.urlStore := by
      intro h
      obtain ⟨r1, hg1, hexp1⟩ := (hiff c).mp h
      rw [hg] at hg1
      cases hg1
      exact absurd hexp1 (not_lt.mpr hle)
    rw [hu, hc]
    simp [hmem, hg]
  · intro c hg
    have hmem : c ∉ expiredKeys now s.urlStore := by
      intro h
      obtain ⟨r1, hg1, _⟩ := (hiff c).mp h
      rw [hg] at hg1
      cases hg1
    rw [hu, hc]
    simp [hmem, hg]
  · rw [hcount, urlStore_cleanupExpiredUrls now hn]
    exact length_filter_add_length_filter_not _ _
  · intro c r hg hlt
    rw [hu] at hg
    split at hg
    · cases hg
    · rename_i hmem
      exact hmem ((hiff c).mpr ⟨r, hg, hlt⟩)

theorem C7_cleanupExpiredUrls_witness :
    (∀ c r, sampleState.urlStore.get c = some r → (60001 : Timestamp) > r.expiry →
      (cleanupExpiredUrls sampleState 60001).2.urlStore.get c = none ∧
      (cleanupExpiredUrls sampleState 60001).2.clickStats.get c = none) ∧
    (∀ c r, sampleState.urlStore.get c = some r → (60001 : Timestamp) ≤ r.expiry →
      (cleanupExpiredUrls sampleState 60001).2.urlStore.get c = some r ∧
      (cleanupExpiredUrls sampleState 60001).2.clickStats.get c =
        sampleState.clickStats.get c) ∧
    (∀ c, sampleState.urlStore.get c = none →
      (cleanupExpiredUrls sampleState 60001).2.urlStore.get c = none ∧
      (cleanupExpiredUrls sampleState 60001).2.clickStats.get c =
        sampleState.clickStats.get c) ∧
    (cleanupExpiredUrls sampleState 60001).1 =
      (sampleState.urlStore.filter (expiredAt 60001)).length ∧
    (cleanupExpiredUrls sampleState 60001).1 +
        (cleanupExpiredUrls sampleState 60001).2.urlStore.length =
      sampleState.urlStore.length ∧
    (cleanupExpiredUrls sampleState 60001).2.usedShortcodes = sampleState.usedShortcodes ∧
    (∀ c r, (cleanupExpiredUrls sampleState 60001).2.urlStore.get c = some r →
      ¬ r.expiry < 60001) :=
  C7_cleanupExpiredUrls sampleState 60001 (by decide)

/-! ## Generated codes -/

/-- C8: whenever `generateShortcode(length)` returns, the code has exactly `length`
characters, all ASCII letters or digits, was not reserved before the call and is
reserved after it, the other reservations being unchanged; and whenever
`createShortUrl` with a valid URL and no custom code returns, it succeeds with a link
`baseUrl/code` whose code matches `^[A-Za-z0-9]{6}$`, is now a key of the registry,
and was neither reserved nor a key of the registry in any earlier state of the
history. -/
theorem C8_generated_code_fresh :
    (∀ (used used1 : JsSet) (rnd : Nat → Fin 62) (fuel length : Nat) (code : String),
      generateShortcode used rnd fuel length = some (code, used1) →
        code.length = length ∧ (∀ ch ∈ code.data, ch.isAlphanum = true) ∧
        code ∉ used ∧ code ∈ used1 ∧ ∀ x, x ∈ used1 ↔ x ∈ used ∨ x = code) ∧
    (∀ (env : Env) (ops1 ops2 : List Op) (s0 s s1 : State) (now : Timestamp)
        (rnd : Nat → Fin 62) (fuel : Nat) (u : String) (validity : Option ℚ)
        (custom : Option String) (res : Except ServiceError CreateResult),
      run env State.empty ops1 = some s0 → run env s0 ops2 = some s →
      env.isValidUrl u = true → truthy custom = false →
      createShortUrl env s now rnd fuel u validity custom = some (res, s1) →
        ∃ code expiry, res = .ok { shortLink := env.baseUrl ++ "/" ++ code, expiry := expiry } ∧
          MatchesDefaultPattern code ∧ code ∈ s1.urlStore.keys ∧
          code ∉ s0.usedShortcodes ∧ code ∉ s0.urlStore.keys) := by
  constructor
  · intro used used1 rnd fuel length code h
    obtain ⟨hfree, hused, hlen, hall⟩ := generateShortcode_some h
    subst hused
    exact ⟨hlen, hall, hfree, by simp, fun x => by simp⟩
  · intro env ops1 ops2 s0 s s1 now rnd fuel u validity custom res h1 h2 hu hc h
    rw [createShortUrl_generated env s now rnd fuel u validity custom hu hc] at h
    split at h
    · exact Option.noConfusion h
    · rename_i code used hg
      obtain ⟨hfree, _, hlen, hall⟩ := generateShortcode_some hg
      have hinv0 := inv_run inv_empty h1
      have hn0 : code ∉ s0.usedShortcodes := fun hm => hfree (usedShortcodes_run h2 hm)
      simp only [storeUrlEntry, Option.some.injEq, Prod.mk.injEq] at h
      obtain ⟨rfl, rfl⟩ := h
      refine ⟨code, _, rfl, ⟨hlen, hall⟩, ?_, hn0, fun hk => hn0 (hinv0.keys_used code hk)⟩
      exact (JsMap.mem_keys_set _ _ _ _).mpr (Or.inr rfl)

theorem generateShortcode_sample :
    generateShortcode ["AAAAAA"] sampleStream 2 6 = some ("BBBBBB", ["AAAAAA", "BBBBBB"]) := by
  decide

theorem generateShortcode_sampleState :
    generateShortcode sampleState.usedShortcodes zeroStream 1 defaultLength =
      some ("AAAAAA", ["abc123", "AAAAAA"]) := by
  decide

theorem C8_generated_code_fresh_witness :
    (("BBBBBB" : String).length = 6 ∧ (∀ ch ∈ ("BBBBBB" : String).data, ch.isAlphanum = true) ∧
      "BBBBBB" ∉ (["AAAAAA"] : JsSet) ∧ "BBBBBB" ∈ (["AAAAAA", "BBBBBB"] : JsSet) ∧
      ∀ x, x ∈ (["AAAAAA", "BBBBBB"] : JsSet) ↔ x ∈ (["AAAAAA"] : JsSet) ∨ x = "BBBBBB") ∧
    (∃ code expiry,
      (storeUrlEntry sampleEnv sampleState ["abc123", "AAAAAA"] 5 "https://example.com" none
          "AAAAAA").1 =
        .ok { shortLink := sampleEnv.baseUrl ++ "/" ++ code, expiry := expiry } ∧
      MatchesDefaultPattern code ∧
      code ∈ (storeUrlEntry sampleEnv sampleState ["abc123", "AAAAAA"] 5 "https://example.com"
          none "AAAAAA").2.urlStore.keys ∧
      code ∉ sampleState.usedShortcodes ∧ code ∉ sampleState.urlStore.keys) :=
  ⟨C8_generated_code_fresh.1 ["AAAAAA"] ["AAAAAA", "BBBBBB"] sampleStream 2 6 "BBBBBB"
      generateShortcode_sample,
    C8_generated_code_fresh.2 sampleEnv
      [.createShortUrl 0 zeroStream 0 "https://example.com" (some 1) (some "abc123")] []
      sampleState sampleState _ 5 zeroStream 1 "https://example.com" none none _
      (by simp [run, step, createShortUrl_sample]) rfl (by decide) (by decide)
      (by
        rw [createShortUrl_generated sampleEnv sampleState 5 zeroStream 1 "https://example.com"
          none none (by decide) (by decide), generateShortcode_sampleState])⟩

/-! ## Validation of the validity period -/

/-- C9, as the code has it: a `POST /shorturls` request with a non-empty `url` whose
`validity` is present and is not a positive number (it is of another type, zero or
negative) is answered `400` 'Invalid validity period', and the state is left as it
was: no record, aggregate or reservation is created. -/
theorem C9_invalid_validity_rejected (env : Env) (s : State) (now : Timestamp)
    (rnd : Nat → Fin 62) (fuel : Nat) (body : CreateBody)
    (hurl : truthy body.url = true) (hdef : body.validity ≠ .undefined)
    (hbad : ∀ q, body.validity = .number q → q ≤ 0) :
    postShorturls env s now rnd fuel body =
      some (.failure 400 "Invalid validity period"
        "Validity must be a positive number representing minutes", s) := by
  unfold postShorturls
  cases hv : body.validity with
  | undefined => exact absurd hv hdef
  | number q =>
    have hq := hbad q hv
    simp [hurl, JsValue.isDefined, JsValue.isNumber, JsValue.leZero, hq]
  | null => simp [hurl, JsValue.isDefined, JsValue.isNumber]
  | boolean b => simp [hurl, JsValue.isDefined, JsValue.isNumber]
  | string x => simp [hurl, JsValue.isDefined, JsValue.isNumber]
  | object => simp [hurl, JsValue.isDefined, JsValue.isNumber]

theorem C9_invalid_validity_rejected_witness :
    postShorturls sampleEnv sampleState 5 zeroStream 1
        { url := some "https://example.com", validity := .number (-5), shortcode := none } =
      some (.failure 400 "Invalid validity period"
        "Validity must be a positive number representing minutes", sampleState) :=
  C9_invalid_validity_rejected sampleEnv sampleState 5 zeroStream 1
    { url := some "https://example.com", validity := .number (-5), shortcode := none }
    (by decide) (by simp) (by
      intro q hq
      simp only [JsValue.number.injEq] at hq
      rw [← hq]
      norm_num)

theorem addMinutes_zero_three_halves : addMinutes 0 (3 / 2) = 90000 := by
  norm_num [addMinutes, timeClip]

/-- C9 as stated fails for a fractional validity: `validity = 1.5` is not a whole
number, yet the handler answers `201` and the record is created, expiring 90 seconds
later. -/
theorem C9_counterexample_fractional_validity :
    (¬ ∃ n : ℤ, (3 / 2 : ℚ) = n) ∧
      sampleEnv.isValidUrl "https://example.com" = true ∧
      ∃ s1, postShorturls sampleEnv State.empty 0 zeroStream 0
          { url := some "https://example.com", validity := .number (3 / 2),
            shortcode := some "abc123" } =
          some (.created 201
            { shortLink := "http://localhost:3000/abc123", expiry := 90000 }, s1) ∧
        (s1.urlStore.get "abc123").isSome = true ∧
        (s1.clickStats.get "abc123").isSome = true ∧
        "abc123" ∈ s1.usedShortcodes := by
  refine ⟨?_, by decide, ?_⟩
  · rintro ⟨n, hn⟩
    have h2 : (2 * n : ℤ) = 3 := by
      have : (2 : ℚ) * n = 3 := by rw [← hn]; norm_num
      exact_mod_cast this
    omega
  · have hle : ¬ ((3 / 2 : ℚ) ≤ 0) := by norm_num
    refine ⟨(storeUrlEntry sampleEnv State.empty ["abc123"] 0 "https://example.com"
      (some (3 / 2)) "abc123").2, ?_, ?_, ?_, ?_⟩
    · have hc := createShortUrl_custom_free sampleEnv State.empty 0 zeroStream 0
        "https://example.com" (some (3 / 2)) "abc123" (by decide) (by decide) (by decide)
      simp only [postShorturls, truthy, JsValue.isDefined, JsValue.isNumber, JsValue.leZero,
        hle, JsValue.toValidity, Option.getD_some]
      simp only [ne_eq, decide_not, decide_False, Bool.not_false, Bool.not_true,
        Bool.false_or, Bool.true_and, Bool.false_eq_true, if_false]
      have he : decide ("https://example.com" = "") = false := by decide
      simp only [he, Bool.not_false, Bool.not_true, Bool.false_eq_true, if_false, hc]
      simp only [storeUrlEntry, Option.getD_some, addMinutes_zero_three_halves]
      rfl
    · simp [storeUrlEntry, JsMap.set, JsMap.get, State.empty]
    · simp [storeUrlEntry, JsMap.set, JsMap.get, State.empty]
    · simp [storeUrlEntry]

/-! ## Validation of the custom code -/

/-- C10, as the code has it: `createShortUrl` with a valid URL and a non-empty custom
code that does not match `^[A-Za-z0-9]{3,20}$` throws 'Invalid shortcode format…' and
leaves the registry, the click ledger and the reservation set as they were; the empty
string is handled like an absent custom code; and `isValidShortcode(code)` is true
exactly for the codes that match `^[A-Za-z0-9]{3,20}$`. -/
theorem C10_invalid_custom_code_rejected (env : Env) (s : State) (now : Timestamp)
    (rnd : Nat → Fin 62) (fuel : Nat) (u : String) (validity : Option ℚ) (c : String)
    (hu : env.isValidUrl u = true) (hne : c ≠ "") (hc : ¬ MatchesShortcodePattern c) :
    createShortUrl env s now rnd fuel u validity (some c) =
        some (.error .invalidShortcodeFormat, s) ∧
      ServiceError.invalidShortcodeFormat.message =
        "Invalid shortcode format. Must be 3-20 alphanumeric characters." ∧
      createShortUrl env s now rnd fuel u validity (some "") =
        createShortUrl env s now rnd fuel u validity none ∧
      ∀ code, isValidShortcode code = true ↔ MatchesShortcodePattern code := by
  refine ⟨?_, rfl, ?_, isValidShortcode_iff⟩
  swap
  · rw [createShortUrl_generated env s now rnd fuel u validity (some "") hu (by decide),
      createShortUrl_generated env s now rnd fuel u validity none hu (by decide)]
  apply createShortUrl_custom_invalid env s now rnd fuel u validity c hu hne
  cases h : isValidShortcode c with
  | false => rfl
  | true => exact absurd ((isValidShortcode_iff c).mp h) hc

theorem C10_invalid_custom_code_rejected_witness :
    createShortUrl sampleEnv sampleState 5 zeroStream 1 "https://example.com" none
        (some "a-b") = some (.error .invalidShortcodeFormat, sampleState) ∧
      ServiceError.invalidShortcodeFormat.message =
        "Invalid shortcode format. Must be 3-20 alphanumeric characters." ∧
      createShortUrl sampleEnv sampleState 5 zeroStream 1 "https://example.com" none (some "") =
        createShortUrl sampleEnv sampleState 5 zeroStream 1 "https://example.com" none none ∧
      ∀ code, isValidShortcode code = true ↔ MatchesShortcodePattern code :=
  C10_invalid_custom_code_rejected sampleEnv sampleState 5 zeroStream 1 "https://example.com"
    none "a-b" (by decide) (by decide) (by
      intro h
      exact absurd ((isValidShortcode_iff "a-b").mpr h) (by decide))

/-- C10 as stated fails for the empty string: it does not match the pattern, yet
`createShortUrl` treats it as no custom code, generates a code and succeeds, adding a
record, an aggregate and a reservation. -/
theorem C10_counterexample_empty_code :
    ¬ MatchesShortcodePattern "" ∧
      sampleEnv.isValidUrl "https://example.com" = true ∧
      ∃ res s1, createShortUrl sampleEnv State.empty 0 zeroStream 1 "https://example.com"
          (some 1) (some "") = some (.ok res, s1) ∧
        res.shortLink = "http://localhost:3000/AAAAAA" ∧
        s1.usedShortcodes = ["AAAAAA"] ∧ s1.urlStore.keys = ["AAAAAA"] ∧
        s1.clickStats.keys = ["AAAAAA"] := by
  refine ⟨fun h => absurd ((isValidShortcode_iff "").mpr h) (by decide), by decide, ?_⟩
  have hg : generateShortcode State.empty.usedShortcodes zeroStream 1 defaultLength =
      some ("AAAAAA", ["AAAAAA"]) := by decide
  rw [createShortUrl_generated sampleEnv State.empty 0 zeroStream 1 "https://example.com"
    (some 1) (some "") (by decide) (by decide), hg]
  exact ⟨_, _, rfl, by decide, rfl, by decide, by decide⟩

/-! ## How a record can change in one call -/

theorem run_append (env : Env) (s : State) (ops1 ops2 : List Op) :
    run env s (ops1 ++ ops2) = (run env s ops1).bind (fun s0 => run env s0 ops2) := by
  induction ops1 generalizing s with
  | nil => simp [run]
  | cons op ops ih =>
    simp only [List.cons_append, run]
    cases step env s op with
    | none => simp
    | some s1 => simp [ih]

theorem get_urlStore_getUrlByShortcode {s : State} {now : Timestamp} {c1 c : String}
    {r1 : UrlEntry} (h : (getUrlByShortcode s now c1).2.urlStore.get c = some r1) :
    s.urlStore.get c = some r1 ∨
      (c1 = c ∧ ∃ r, s.urlStore.get c = some r ∧ now > r.expiry ∧
        r1 = { r with isActive := false } ∧
        (getUrlByShortcode s now c).1 = .error .urlExpired) := by
  rcases getUrlByShortcode_cases s now c1 with ⟨_, he⟩ | ⟨r, hg, hexp, he⟩ | ⟨r, _, _, he⟩
  · rw [he] at h; exact Or.inl h
  · rw [he] at h
    by_cases hc : c1 = c
    · subst hc
      simp only [JsMap.get_set_self, Option.some.injEq] at h
      exact Or.inr ⟨rfl, r, hg, hexp, h.symm, by rw [he]⟩
    · simp only [JsMap.get_set_ne _ _ hc] at h
      exact Or.inl h
  · rw [he] at h; exact Or.inl h

theorem get_urlStore_cleanupExpiredUrls {s : State} {now : Timestamp} {c : String}
    {r1 : UrlEntry} (h : (cleanupExpiredUrls s now).2.urlStore.get c = some r1) :
    s.urlStore.get c = some r1 := by
  have hu : (cleanupExpiredUrls s now).2.urlStore.get c =
      if c ∈ expiredKeys now s.urlStore then none else s.urlStore.get c :=
    get_urlStore_cleanupLoop now s.urlStore s 0 c
  rw [hu] at h
  split at h
  · exact Option.noConfusion h
  · exact h

theorem lookup_mem_clockReadings {op : Op} {now : Timestamp} {c : String}
    (h : op.lookup = some (now, c)) : now ∈ op.clockReadings := by
  cases op <;> simp_all [Op.lookup, Op.clockReadings]

/-- A record found under `c` after a call was there before the call, or has just been
created under a code that was free, or is the record of before with `isActive` set to
`false` by a look-up of `c` that found it expired. -/
theorem get_urlStore_step {env : Env} {s s1 : State} {op : Op} {c : String} {r1 : UrlEntry}
    (h : step env s op = some s1) (h1 : s1.urlStore.get c = some r1) :
    s.urlStore.get c = some r1 ∨ (r1.isActive = true ∧ c ∉ s.usedShortcodes) ∨
      ∃ now r, op.lookup = some (now, c) ∧ s.urlStore.get c = some r ∧ now > r.expiry ∧
        r1 = { r with isActive := false } ∧
        (getUrlByShortcode s now c).1 = .error .urlExpired := by
  cases op with
  | createShortUrl now rnd fuel u validity custom =>
    simp only [step, Option.map_eq_some'] at h
    obtain ⟨⟨res, s2⟩, h2, rfl⟩ := h
    rcases createShortUrl_cases h2 with ⟨rfl, _⟩ | ⟨code, hfree, _, _, heq⟩
    · exact Or.inl h1
    · have h3 := congrArg Prod.snd heq
      simp only [storeUrlEntry] at h3
      rw [h3] at h1
      by_cases hc : code = c
      · subst hc
        simp only [JsMap.get_set_self, Option.some.injEq] at h1
        exact Or.inr (Or.inl ⟨by rw [← h1], hfree⟩)
      · simp only [JsMap.get_set_ne _ _ hc] at h1
        exact Or.inl h1
  | getUrlByShortcode now c1 =>
    simp only [step, Option.some.injEq] at h
    subst h
    rcases get_urlStore_getUrlByShortcode h1 with h2 | ⟨rfl, r, h2⟩
    · exact Or.inl h2
    · exact Or.inr (Or.inr ⟨now, r, rfl, h2⟩)
  | recordClick now stamp c1 req =>
    simp only [step, Option.some.injEq] at h
    subst h
    rw [(recordClick_frame env s now stamp c1 req).2] at h1
    rcases get_urlStore_getUrlByShortcode h1 with h2 | ⟨rfl, r, h2⟩
    · exact Or.inl h2
    · exact Or.inr (Or.inr ⟨now, r, rfl, h2⟩)
  | getStatistics now c1 =>
    simp only [step, Option.some.injEq] at h
    subst h
    rw [getStatistics_state] at h1
    rcases get_urlStore_getUrlByShortcode h1 with h2 | ⟨rfl, r, h2⟩
    · exact Or.inl h2
    · exact Or.inr (Or.inr ⟨now, r, rfl, h2⟩)
  | cleanupExpiredUrls now =>
    simp only [step, Option.some.injEq] at h
    subst h
    exact Or.inl (get_urlStore_cleanupExpiredUrls h1)

/-! ## Monotonicity of `isActive` -/

theorem retired_step {env : Env} {s s1 : State} {op : Op} {c : String}
    (h : step env s op = some s1) (hs : Retired c s) : Retired c s1 := by
  refine ⟨usedShortcodes_step h hs.1, fun r1 h1 => ?_⟩
  rcases get_urlStore_step h h1 with h2 | ⟨_, hfree⟩ | ⟨now, r, _, _, _, hr1, _⟩
  · exact hs.2 r1 h2
  · exact absurd hs.1 hfree
  · rw [hr1]

theorem retired_run {env : Env} {ops : List Op} {s s1 : State} {c : String}
    (h : run env s ops = some s1) (hs : Retired c s) : Retired c s1 := by
  induction ops generalizing s with
  | nil =>
    simp only [run, Option.some.injEq] at h
    subst h; exact hs
  | cons op ops ih =>
    simp only [run] at h
    split at h
    · exact Option.noConfusion h
    · rename_i s2 hstep
      exact ih h (retired_step hstep hs)

/-- C11: in one call, the record stored under a code goes from `isActive = true` to
`isActive = false` only through the `getUrlByShortcode` look-up of that code (made
directly, or by `recordClick` or `getStatistics`) at a clock reading after the
record's expiry, which throws 'URL has expired' and changes nothing else in the
record; and once a state of a history holds a record with `isActive = false` under a
code, every record found under that code in a later state has `isActive = false`. -/
theorem C11_isActive_monotone :
    (∀ (env : Env) (s s1 : State) (op : Op) (c : String) (r r1 : UrlEntry),
      step env s op = some s1 → s.urlStore.get c = some r → r.isActive = true →
      s1.urlStore.get c = some r1 → r1.isActive = false →
        ∃ now, op.lookup = some (now, c) ∧ now > r.expiry ∧
          (getUrlByShortcode s now c).1 = .error .urlExpired ∧
          r1 = { r with isActive := false }) ∧
    (∀ (env : Env) (ops1 ops2 : List Op) (s0 s : State) (c : String) (r0 r : UrlEntry),
      run env State.empty ops1 = some s0 → run env s0 ops2 = some s →
      s0.urlStore.get c = some r0 → r0.isActive = false →
      s.urlStore.get c = some r → r.isActive = false) := by
  constructor
  · intro env s s1 op c r r1 h hr ha hr1 ha1
    rcases get_urlStore_step h hr1 with h2 | ⟨h2, _⟩ | ⟨now, r2, hl, hg, hexp, he, herr⟩
    · rw [hr] at h2
      cases h2
      rw [ha] at ha1
      exact Bool.noConfusion ha1
    · rw [h2] at ha1
      exact Bool.noConfusion ha1
    · rw [hr] at hg
      cases hg
      exact ⟨now, hl, hexp, herr, he⟩
  · intro env ops1 ops2 s0 s c r0 r h1 h2 hr0 ha0 hr
    have hinv := inv_run inv_empty h1
    have hret : Retired c s0 :=
      ⟨hinv.keys_used c (JsMap.mem_keys_of_get hr0), fun r1 hr1 => by
        rw [hr0] at hr1
        cases hr1
        exact ha0⟩
    exact (retired_run h2 hret).2 r hr

theorem step_sampleState_expired :
    step sampleEnv sampleState (.getUrlByShortcode 60001 "abc123") = some sampleExpired := by
  decide

theorem run_sampleExpiredHistory :
    run sampleEnv State.empty sampleExpiredHistory = some sampleExpired := by
  simp only [sampleExpiredHistory, run, step, createShortUrl_sample, Option.map_some']
  decide

theorem C11_isActive_monotone_witness :
    (∃ now, (Op.getUrlByShortcode 60001 "abc123").lookup = some (now, "abc123") ∧
        now > sampleEntry.expiry ∧
        (getUrlByShortcode sampleState now "abc123").1 = .error .urlExpired ∧
        ({ sampleEntry with isActive := false } : UrlEntry) =
          { sampleEntry with isActive := false }) ∧
      ({ sampleEntry with isActive := false } : UrlEntry).isActive = false :=
  ⟨C11_isActive_monotone.1 sampleEnv sampleState sampleExpired
      (.getUrlByShortcode 60001 "abc123") "abc123" sampleEntry
      { sampleEntry with isActive := false } step_sampleState_expired (by decide) (by decide)
      (by decide) (by decide),
    C11_isActive_monotone.2 sampleEnv sampleExpiredHistory [.getStatistics 50 "abc123"]
      sampleExpired sampleExpired "abc123" { sampleEntry with isActive := false }
      { sampleEntry with isActive := false } run_sampleExpiredHistory (by decide) (by decide)
      (by decide) (by decide)⟩

/-! ## Inactive records under a non-decreasing clock -/

theorem flagInv_step {env : Env} {s s1 : State} {op : Op} {seen : List Timestamp}
    (h : step env s op = some s1) (hs : FlagInv seen s) :
    FlagInv (seen ++ op.clockReadings) s1 := by
  intro c r1 h1 ha1
  rcases get_urlStore_step h h1 with h2 | ⟨h2, _⟩ | ⟨now, r, hl, _, hexp, he, _⟩
  · obtain ⟨t, ht, hlt⟩ := hs c r1 h2 ha1
    exact ⟨t, List.mem_append_left _ ht, hlt⟩
  · rw [h2] at ha1
    exact Bool.noConfusion ha1
  · refine ⟨now, List.mem_append_right _ (lookup_mem_clockReadings hl), ?_⟩
    rw [he]
    exact hexp

theorem flagInv_run {env : Env} {ops : List Op} {s s1 : State} {seen : List Timestamp}
    (h : run env s ops = some s1) (hs : FlagInv seen s) :
    FlagInv (seen ++ clockTrace ops) s1 := by
  induction ops generalizing s seen with
  | nil =>
    simp only [run, Option.some.injEq] at h
    subst h
    simpa [clockTrace] using hs
  | cons op ops ih =>
    simp only [run] at h
    split at h
    · exact Option.noConfusion h
    · rename_i s2 hstep
      have := ih h (flagInv_step hstep hs)
      simpa [clockTrace, List.append_assoc] using this

theorem flagInv_empty : FlagInv [] State.empty := by
  intro c r h
  simp [State.empty, JsMap.get] at h

theorem recordClick_error {env : Env} {s : State} {now : Timestamp} {c : String}
    {e : ServiceError} (stamp : Timestamp) (req : Request)
    (h : (getUrlByShortcode s now c).1 = .error e) :
    (recordClick env s now stamp c req).1 = .error e := by
  unfold recordClick
  split
  · rename_i e1 s1 heq
    rw [heq] at h
    simp only [Except.error.injEq] at h
    rw [h]
  · rename_i r s1 heq
    rw [heq] at h
    exact Except.noConfusion h

theorem getStatistics_error {s : State} {now : Timestamp} {c : String} {e : ServiceError}
    (h : (getUrlByShortcode s now c).1 = .error e) :
    (getStatistics s now c).1 = .error e := by
  unfold getStatistics
  split
  · rename_i e1 s1 heq
    rw [heq] at h
    simp only [Except.error.injEq] at h
    rw [h]
  · rename_i r s1 heq
    rw [heq] at h
    exact Except.noConfusion h

theorem getStatistics_ok {s s1 : State} {now : Timestamp} {c : String} {view : Statistics}
    (h : getStatistics s now c = (.ok view, s1)) :
    ∃ r, s.urlStore.get c = some r ∧ now ≤ r.expiry ∧ view.isActive = r.isActive := by
  rcases getUrlByShortcode_cases s now c with ⟨_, he⟩ | ⟨r, _, _, he⟩ | ⟨r, hg, hle, he⟩
  · have := getStatistics_error (congrArg Prod.fst he)
    rw [h] at this
    exact Except.noConfusion this
  · have := getStatistics_error (congrArg Prod.fst he)
    rw [h] at this
    exact Except.noConfusion this
  · refine ⟨r, hg, hle, ?_⟩
    simp only [getStatistics, he] at h
    split at h
    · simp only [Prod.mk.injEq] at h
      exact Except.noConfusion h.1
    · simp only [Prod.mk.injEq, Except.ok.injEq] at h
      rw [← h.1]

/-- After a history, a record that is no longer active is rejected by a look-up at any
clock reading that is not earlier than the readings of the history. -/
theorem getUrlByShortcode_inactive {env : Env} {ops : List Op} {s : State}
    {now : Timestamp} {c : String} {r : UrlEntry} (h : run env State.empty ops = some s)
    (hclock : ∀ t ∈ clockTrace ops, t ≤ now) (hr : s.urlStore.get c = some r)
    (ha : r.isActive = false) :
    (getUrlByShortcode s now c).1 = .error .urlExpired := by
  have hflag : FlagInv ([] ++ clockTrace ops) s := flagInv_run h flagInv_empty
  obtain ⟨t, ht, hlt⟩ := hflag c r hr ha
  rw [List.nil_append] at ht
  have hgt : now > r.expiry := lt_of_lt_of_le hlt (hclock t ht)
  rw [getUrlByShortcode_of_gt hr hgt]

theorem le_of_nonDecreasing_append {l : List Timestamp} {now : Timestamp}
    (h : NonDecreasing (l ++ [now])) : ∀ t ∈ l, t ≤ now := by
  intro t ht
  unfold NonDecreasing at h
  rw [List.pairwise_append] at h
  exact h.2.2 t ht now (List.mem_singleton.mpr rfl)

/-- C13: after a history from the empty state whose clock readings, followed by the
reading `now` of the next call, are non-decreasing, every successful
`getStatistics(c)` returns `isActive = true`; and if some state of the history held a
record with `isActive = false` under `c`, then `getUrlByShortcode(c)`, `recordClick(c)`
and `getStatistics(c)` all throw: 'URL has expired' while the record is still stored,
'Shortcode not found' once a cleanup has removed it. -/
theorem C13_inactive_never_returned (env : Env) (ops : List Op) (s : State)
    (now : Timestamp) (c : String) (h : run env State.empty ops = some s)
    (hclock : NonDecreasing (clockTrace ops ++ [now])) :
    (∀ view s1, getStatistics s now c = (.ok view, s1) → view.isActive = true) ∧
    (∀ ops1 ops2 s0 r0, ops = ops1 ++ ops2 → run env State.empty ops1 = some s0 →
      s0.urlStore.get c = some r0 → r0.isActive = false →
      ∃ e, e = (if (s.urlStore.get c).isSome then ServiceError.urlExpired
            else ServiceError.shortcodeNotFound) ∧
        (getUrlByShortcode s now c).1 = .error e ∧
        (∀ stamp req, (recordClick env s now stamp c req).1 = .error e) ∧
        (getStatistics s now c).1 = .error e) := by
  have hle := le_of_nonDecreasing_append hclock
  constructor
  · intro view s1 hok
    obtain ⟨r, hg, hnow, hview⟩ := getStatistics_ok hok
    rw [hview]
    cases ha : r.isActive with
    | true => rfl
    | false =>
      have := getUrlByShortcode_inactive h hle hg ha
      rw [getUrlByShortcode_of_le hg hnow] at this
      exact Except.noConfusion this
  · intro ops1 ops2 s0 r0 hops h1 hr0 ha0
    subst hops
    have hrun := h
    rw [run_append, h1] at h
    simp only [Option.some_bind] at h
    have hinv := inv_run inv_empty h1
    have hret : Retired c s0 :=
      ⟨hinv.keys_used c (JsMap.mem_keys_of_get hr0), fun r1 hr1 => by
        rw [hr0] at hr1
        cases hr1
        exact ha0⟩
    have hret1 := retired_run h hret
    have herr : ∃ e, e = (if (s.urlStore.get c).isSome then ServiceError.urlExpired
        else ServiceError.shortcodeNotFound) ∧ (getUrlByShortcode s now c).1 = .error e := by
      cases hg : s.urlStore.get c with
      | none => exact ⟨_, rfl, by rw [getUrlByShortcode_of_none hg]; rfl⟩
      | some r =>
        exact ⟨_, rfl, getUrlByShortcode_inactive hrun hle hg (hret1.2 r hg)⟩
    obtain ⟨e, he, hget⟩ := herr
    exact ⟨e, he, hget, fun stamp req => recordClick_error stamp req hget,
      getStatistics_error hget⟩

theorem C13_inactive_never_returned_witness :
    (∀ view s1, getStatistics sampleExpired 70000 "abc123" = (.ok view, s1) →
      view.isActive = true) ∧
    (∀ ops1 ops2 s0 r0, sampleExpiredHistory = ops1 ++ ops2 →
      run sampleEnv State.empty ops1 = some s0 →
      s0.urlStore.get "abc123" = some r0 → r0.isActive = false →
      ∃ e, e = (if (sampleExpired.urlStore.get "abc123").isSome then ServiceError.urlExpired
            else ServiceError.shortcodeNotFound) ∧
        (getUrlByShortcode sampleExpired 70000 "abc123").1 = .error e ∧
        (∀ stamp req, (recordClick sampleEnv sampleExpired 70000 stamp "abc123" req).1 =
          .error e) ∧
        (getStatistics sampleExpired 70000 "abc123").1 = .error e) :=
  C13_inactive_never_returned sampleEnv sampleExpiredHistory sampleExpired 70000 "abc123"
    run_sampleExpiredHistory (by unfold NonDecreasing; decide)

/-- The clock hypothesis of C13 is needed: if the clock goes back to a reading before
the expiry, `getStatistics` succeeds on the record that was observed expired and
returns `isActive = false`. -/
theorem getStatistics_inactive_when_clock_goes_back :
    ∃ view, getStatistics sampleExpired 50 "abc123" = (.ok view, sampleExpired) ∧
      view.isActive = false := by
  have hg : sampleExpired.urlStore.get "abc123" =
      some { sampleEntry with isActive := false } := by decide
  have hs : sampleExpired.clickStats.get "abc123" = some { totalClicks := 0, clicks := [] } := by
    decide
  refine ⟨Statistics.mk "abc123" "https://example.com" "http://localhost:3000/abc123" 0 60000
    false 0 [], ?_, rfl⟩
  have hle : (50 : Timestamp) ≤ ({ sampleEntry with isActive := false } : UrlEntry).expiry := by
    decide
  simp only [getStatistics, getUrlByShortcode_of_le hg hle, hs]
  rfl

/-! ## The classification fallback -/

theorem fallbackClassify_eq (s browser os : String) :
    fallbackClassify s browser os =
      (if includes s "Chrome" then "Chrome"
        else if includes s "Firefox" then "Firefox"
        else if includes s "Safari" then "Safari"
        else if includes s "Edge" then "Edge"
        else browser,
       if includes s "Windows" then "Windows"
        else if includes s "Mac" then "macOS"
        else if includes s "Linux" then "Linux"
        else if includes s "Android" then "Android"
        else if includes s "iOS" then "iOS"
        else os,
       heuristicDevice s) := rfl

end UrlShortener
